import Mathlib

/-!
# Verification of the uCIR execution engine (`uc_interpreter.py`)

This file is a shallow embedding, in Lean 4, of the uCIR interpreter of the
repository (class `Interpreter` in `uc_interpreter.py`, plus the module-level
`format_instruction` and the module-global memory `M` and input buffer
`inputline`).  Every definition below is translated from the Python source;
doc comments name the Python function or code region a definition embeds.

Modelling conventions:
* Python values that can live in a memory cell are modelled by `Val`.
  Python `float` values are modelled as exact rationals (`Rat`); the engine's
  claims under study never depend on floating-point rounding, and this is the
  only idealization in the value model.
* Python lists are Lean `List`s; Python indexing (including negative-index
  wrap-around and `IndexError`) is modelled by `pyGet`/`pySet`, and slice
  assignment by `pySpliceSet`.
* Python dicts keyed by strings are association lists with Python's
  "update in place or append" assignment (`dinsert`).
* An uncaught Python exception (KeyError, IndexError, TypeError, ...) is the
  `crash` outcome: the process terminates with a traceback.
* `sys.exit v` is the `exit v` outcome.
* Unbounded Python `while` loops are given explicit fuel; running out of fuel
  is the `fuelOut` outcome (it never equals a terminating outcome).
* The process's standard output is the concatenation of the `out` chunks;
  the source never writes to `sys.stderr` (only an uncaught-exception
  traceback would appear there), which the model records in the always-empty
  `err` component.
-/

/-- A runtime value held in one cell of the interpreter memory `M`, or passed
around by the engine: Python `None`, `int`, `bool`, `str` or `float`
(modelled as an exact rational).  A Python `list` stored whole in a single
cell can only arise from a malformed scalar `global_T` instruction carrying a
list initializer; that producer-bug corner is modelled by an empty cell. -/
inductive Val where
  | none : Val
  | int (n : Int) : Val
  | bool (b : Bool) : Val
  | str (s : String) : Val
  | float (q : Rat) : Val
deriving DecidableEq, Repr

/-- One operand of an instruction tuple: a string token, an integer literal,
a float literal, a nested list (global initializers), or the argument-list
operand of a `define` instruction (a list of (type-tag, name) pairs). -/
inductive Opnd where
  | s (x : String) : Opnd
  | i (n : Int) : Opnd
  | q (r : Rat) : Opnd
  | lst (es : List Opnd) : Opnd
  | args (l : List (String × String)) : Opnd

/-- An instruction tuple: first element (opcode string, or `name:` for a
label) and the remaining operands.  The Python tuple `(op, a, b)` is
`⟨op, [a, b]⟩`; `len(t)` is `1 + args.length`. -/
structure Instr where
  op : String
  args : List Opnd

/-- Name → value dictionaries of the engine (`self.globals`, `self.vars`):
association lists from string to integer (offset or pc). -/
abbrev Dict := List (String × Int)

/-- Python dict lookup `d[k]` (`Option.none` = KeyError). -/
def dlookup (d : Dict) (k : String) : Option Int :=
  match d with
  | [] => Option.none
  | (k', v) :: d' => if k' = k then some v else dlookup d' k

/-- Python dict assignment `d[k] = v`: replace in place if the key exists,
else append. -/
def dinsert (k : String) (v : Int) (d : Dict) : Dict :=
  match d with
  | [] => [(k, v)]
  | (k', v') :: d' => if k' = k then (k, v) :: d' else (k', v') :: dinsert k v d'

/-- Python `len(l)` (used on the small lists of the engine; the 10000-cell
memory instead carries its length alongside, see `Core.memLen`). -/
def pyLen {α : Type} : List α → Nat
  | [] => 0
  | _ :: l => pyLen l + 1

/-- Structural list indexing (reduction depth bounded by the index). -/
def listNth {α : Type} : List α → Nat → Option α
  | [], _ => Option.none
  | x :: _, 0 => some x
  | _ :: l, n + 1 => listNth l n

/-- Python list read `l[i]` with negative-index wrap-around, given the
list's length `n`; `Option.none` models `IndexError`. -/
def pyGetL {α : Type} (l : List α) (n : Nat) (i : Int) : Option α :=
  if 0 ≤ i ∧ i < (n : Int) then listNth l i.toNat
  else if -(n : Int) ≤ i ∧ i < 0 then listNth l (i + (n : Int)).toNat
  else Option.none

/-- Python list element assignment `l[i] = v` with negative-index
wrap-around, given the list's length; `Option.none` models `IndexError`. -/
def pySetL {α : Type} (l : List α) (n : Nat) (i : Int) (v : α) : Option (List α) :=
  if 0 ≤ i ∧ i < (n : Int) then some (l.set i.toNat v)
  else if -(n : Int) ≤ i ∧ i < 0 then some (l.set (i + (n : Int)).toNat v)
  else Option.none

/-- Python list read `l[i]`. -/
def pyGet {α : Type} (l : List α) (i : Int) : Option α := pyGetL l (pyLen l) i

/-- Python list element assignment `l[i] = v`. -/
def pySet {α : Type} (l : List α) (i : Int) (v : α) : Option (List α) :=
  pySetL l (pyLen l) i v

/-- Clamp a Python slice bound to `[0, len]` (negative counts from the end). -/
def pySliceBound (len : Nat) (i : Int) : Nat :=
  if i < 0 then
    (if (len : Int) + i < 0 then 0 else ((len : Int) + i).toNat)
  else
    (if i > (len : Int) then len else i.toNat)

/-- Python slice read `l[a:b]` given the list's length (total, clamped;
never raises). -/
def pySliceGetL {α : Type} (l : List α) (n : Nat) (a b : Int) : List α :=
  let a' := pySliceBound n a
  let b' := pySliceBound n b
  if a' ≤ b' then (l.drop a').take (b' - a') else []

/-- Python slice assignment `l[a:b] = v` given the list's length (total;
returns the new list and its new length). -/
def pySpliceSetL {α : Type} (l : List α) (n : Nat) (a b : Int) (v : List α) :
    List α × Nat :=
  let a' := pySliceBound n a
  let b' := pySliceBound n b
  let b'' := if a' ≤ b' then b' else a'
  (l.take a' ++ v ++ l.drop b'', a' + pyLen v + (n - b''))

/-- The whitespace characters of Python's `str.split()` / `str.strip()`. -/
def pyIsWS (c : Char) : Bool :=
  c = ' ' || c = '\t' || c = '\n' || c = '\x0d' || c = '\x0b' || c = '\x0c'

/-- Helper for `pySplitWS`: accumulates the current (reversed) token. -/
def pySplitWSAux : List Char → List Char → List (List Char)
  | [], acc => if acc = [] then [] else [acc.reverse]
  | c :: cs, acc =>
    if pyIsWS c then
      if acc = [] then pySplitWSAux cs [] else acc.reverse :: pySplitWSAux cs []
    else
      pySplitWSAux cs (c :: acc)

/-- Python `str.split()` (no argument): split on whitespace runs, dropping
empty pieces. -/
def pySplitWS (l : List Char) : List (List Char) := pySplitWSAux l []

/-- Python `str.strip()`: remove leading and trailing whitespace. -/
def pyStrip (l : List Char) : List Char :=
  ((l.dropWhile pyIsWS).reverse.dropWhile pyIsWS).reverse

/-- Python `s.split(sep)` for a one-character separator `sep` (keeps empty
pieces, always returns at least one piece). -/
def pySplitOn (sep : Char) : List Char → List (List Char)
  | [] => [[]]
  | c :: cs =>
    let r := pySplitOn sep cs
    if c = sep then
      [] :: r
    else
      match r with
      | [] => [[c]]
      | t :: ts => (c :: t) :: ts

/-- Python `s.startswith(p)`. -/
def pyStartsWith (s p : String) : Bool := p.data.isPrefixOf s.data

/-- Python `s[:-1]` on a string. -/
def pyDropLastStr (s : String) : String := String.mk s.data.dropLast

/-- Python `str.isdigit()` restricted to ASCII: nonempty and all digits. -/
def pyIsDigit (s : String) : Bool := s.data ≠ [] && s.data.all Char.isDigit

/-- Digit accumulation for `pyIntParse`. -/
def pyDigitsVal : List Char → Nat → Nat
  | [], acc => acc
  | c :: cs, acc => pyDigitsVal cs (acc * 10 + (c.toNat - 48))

/-- Helper: checks the digits-with-single-underscores body of a Python int
literal (`1_000` is legal; leading, trailing or doubled underscores are not)
and returns the digit characters. -/
def pyIntBody : List Char → Bool → Option (List Char)
  | [], seenDigit => if seenDigit then some [] else Option.none
  | c :: cs, seenDigit =>
    if c.isDigit then
      match pyIntBody cs true with
      | some ds => some (c :: ds)
      | Option.none => Option.none
    else if c = '_' then
      match cs with
      | [] => Option.none
      | c' :: _ =>
        if seenDigit && c'.isDigit then pyIntBody cs seenDigit else Option.none
    else
      Option.none

/-- Python `int(s)` on a string (ASCII): optional surrounding whitespace,
optional sign, digits with single interior underscores.
`Option.none` models `ValueError`. -/
def pyIntParse (s : String) : Option Int :=
  match pyStrip s.data with
  | '+' :: rest =>
    (pyIntBody rest false).map (fun ds => (pyDigitsVal ds 0 : Int))
  | '-' :: rest =>
    (pyIntBody rest false).map (fun ds => -(pyDigitsVal ds 0 : Int))
  | rest =>
    (pyIntBody rest false).map (fun ds => (pyDigitsVal ds 0 : Int))

/-- Digit run at the front of a character list: returns (digits, rest). -/
def takeDigits (l : List Char) : List Char × List Char :=
  (l.takeWhile Char.isDigit, l.dropWhile Char.isDigit)

/-- Helper for `pyFloatParse`: unsigned mantissa-and-exponent grammar
`digits [. digits] [e[sign]digits]` or `. digits [e[sign]digits]`. -/
def pyFloatBody (l : List Char) : Option Rat :=
  let (ip, r1) := takeDigits l
  let (fp, r2) :=
    match r1 with
    | '.' :: r => takeDigits r
    | _ => ([], r1)
  if ip = [] ∧ fp = [] then Option.none
  else if r1 ≠ [] ∧ r1.head? ≠ some '.' ∧ r1.head? ≠ some 'e' ∧ r1.head? ≠ some 'E' then
    Option.none
  else
    let mant : Rat := (pyDigitsVal ip 0 : Int) + mkRat (pyDigitsVal fp 0 : Int) (10 ^ fp.length)
    match r2 with
    | [] => some mant
    | 'e' :: re | 'E' :: re =>
      let (sgn, rd) :=
        match re with
        | '+' :: r => ((1 : Int), r)
        | '-' :: r => ((-1 : Int), r)
        | r => ((1 : Int), r)
      let (ed, rest) := takeDigits rd
      if ed = [] ∨ rest ≠ [] then Option.none
      else
        let e : Int := sgn * (pyDigitsVal ed 0 : Int)
        if 0 ≤ e then some (mant * (10 : Rat) ^ e.toNat)
        else some (mant / (10 : Rat) ^ (-e).toNat)
    | _ => Option.none

/-- Python `float(s)` on a string (decimal and scientific notation; the
`inf`/`nan` spellings and interior underscores are not modelled — no claim
exercises them).  `Option.none` models `ValueError`. -/
def pyFloatParse (s : String) : Option Rat :=
  match pyStrip s.data with
  | '+' :: rest => pyFloatBody rest
  | '-' :: rest => (pyFloatBody rest).map Neg.neg
  | rest => pyFloatBody rest

/-- Decimal rendering of a natural number (explicit fuel keeps the
definition kernel-reducible). -/
def natToStrAux : Nat → Nat → List Char → List Char
  | 0, _, acc => acc
  | f + 1, n, acc =>
    let d := Char.ofNat (48 + n % 10)
    if n < 10 then d :: acc else natToStrAux f (n / 10) (d :: acc)

/-- Decimal rendering of a natural number. -/
def natToStr (n : Nat) : String := String.mk (natToStrAux (n + 1) n [])

/-- Python `str(i)` for an integer. -/
def intToStr (i : Int) : String :=
  if i < 0 then "-" ++ natToStr i.natAbs else natToStr i.toNat

/-- Smallest `k ≤ 30` with `den ∣ 10^k`, if any (for decimal float display). -/
def decExpOf (den : Nat) : Option Nat :=
  (List.range 31).find? (fun k => 10 ^ k % den = 0)

/-- Python `str(x)` for a float value modelled as a rational: exact decimal
display when the denominator divides a power of ten, otherwise a
`num/den` fallback (display only; no claim depends on float rendering). -/
def floatToStr (q : Rat) : String :=
  match decExpOf q.den with
  | some 0 => intToStr q.num ++ ".0"
  | some k =>
    let scaled := q.num.natAbs * (10 ^ k / q.den)
    let ds := natToStr scaled
    let ds := if ds.data.length ≤ k then String.mk (List.replicate (k + 1 - ds.data.length) '0' ++ ds.data) else ds
    let ip := String.mk (ds.data.take (ds.data.length - k))
    let fp := String.mk (ds.data.drop (ds.data.length - k))
    (if q.num < 0 then "-" else "") ++ ip ++ "." ++ fp
  | Option.none => intToStr q.num ++ "/" ++ natToStr q.den

/-- Python `str(v)` of a cell value. -/
def pyStr : Val → String
  | .none => "None"
  | .int n => intToStr n
  | .bool b => if b then "True" else "False"
  | .str s => s
  | .float q => floatToStr q

/-- Python truthiness of a cell value. -/
def vTruthy : Val → Bool
  | .none => false
  | .int n => n ≠ 0
  | .bool b => b
  | .str s => s ≠ ""
  | .float q => q ≠ 0

/-- A value as a Python `int`-compatible index or arithmetic atom
(`bool` is an `int` subtype in Python). -/
def vAsIntB : Val → Option Int
  | .int n => some n
  | .bool b => some (if b then 1 else 0)
  | _ => Option.none

/-- A numeric value as a rational (`int`, `bool` and `float` coerce). -/
def vAsRat : Val → Option Rat
  | .int n => some (n : Rat)
  | .bool b => some (if b then (1 : Rat) else 0)
  | .float q => some q
  | _ => Option.none

/-- Shared int/float numeric-tower arithmetic: integer result when both
operands are `int`/`bool`, float result when a float participates;
`Option.none` models `TypeError`. -/
def numArith (fi : Int → Int → Int) (fq : Rat → Rat → Rat) (a b : Val) : Option Val :=
  match vAsIntB a, vAsIntB b with
  | some x, some y => some (.int (fi x y))
  | _, _ =>
    match vAsRat a, vAsRat b with
    | some x, some y => some (.float (fq x y))
    | _, _ => Option.none

/-- Python string repetition `s * n`. -/
def strRepeat (s : String) (n : Int) : String :=
  String.mk (List.replicate n.toNat s.data).flatten

/-- Python `+` as used by `run_add_int` and friends (string concatenation
included; list concatenation is not modelled — no claim exercises it). -/
def vAdd (a b : Val) : Option Val :=
  match a, b with
  | .str s, .str t => some (.str (s ++ t))
  | _, _ => numArith (· + ·) (· + ·) a b

/-- Python `-` as used by `run_sub_int`. -/
def vSub (a b : Val) : Option Val := numArith (· - ·) (· - ·) a b

/-- Python `*` as used by `run_mul_int` (string repetition included). -/
def vMul (a b : Val) : Option Val :=
  match a, b with
  | .str s, .int n => some (.str (strRepeat s n))
  | .int n, .str s => some (.str (strRepeat s n))
  | _, _ => numArith (· * ·) (· * ·) a b

/-- Python floor division `//` as used by `run_div_int`; `Option.none` on a
zero divisor models `ZeroDivisionError`. -/
def vFloorDiv (a b : Val) : Option Val :=
  match vAsRat b with
  | some y => if y = 0 then Option.none else numArith Int.fdiv (fun x y => ((x / y).floor : Int)) a b
  | Option.none => Option.none

/-- Python `%` as used by `run_mod_int` (sign follows the divisor);
`Option.none` on a zero divisor models `ZeroDivisionError`. -/
def vMod (a b : Val) : Option Val :=
  match vAsRat b with
  | some y => if y = 0 then Option.none else numArith Int.fmod (fun x y => x - y * ((x / y).floor : Int)) a b
  | Option.none => Option.none

/-- Python true division `/` as used by `run_div_float`; `Option.none` on a
zero divisor models `ZeroDivisionError`. -/
def vTrueDiv (a b : Val) : Option Val :=
  match vAsRat a, vAsRat b with
  | some x, some y => if y = 0 then Option.none else some (.float (x / y))
  | _, _ => Option.none

/-- Lexicographic `<` on character lists (Python string comparison). -/
def charListLt : List Char → List Char → Bool
  | [], [] => false
  | [], _ :: _ => true
  | _ :: _, [] => false
  | c :: cs, d :: ds => if c < d then true else if d < c then false else charListLt cs ds

/-- Generic Python ordered comparison driver: numeric tower, or
string-vs-string; `Option.none` models `TypeError` on mixed kinds. -/
def vCompare (fq : Rat → Rat → Bool) (fs : String → String → Bool) (a b : Val) : Option Val :=
  match a, b with
  | .str s, .str t => some (.bool (fs s t))
  | _, _ =>
    match vAsRat a, vAsRat b with
    | some x, some y => some (.bool (fq x y))
    | _, _ => Option.none

/-- Python `<` (`run_lt_int` family). -/
def vLt (a b : Val) : Option Val :=
  vCompare (fun x y => decide (x < y)) (fun s t => charListLt s.data t.data) a b

/-- Python `<=` (`run_le_int` family). -/
def vLe (a b : Val) : Option Val :=
  vCompare (fun x y => decide (x ≤ y)) (fun s t => !charListLt t.data s.data) a b

/-- Python `>` (`run_gt_int` family). -/
def vGt (a b : Val) : Option Val :=
  vCompare (fun x y => decide (y < x)) (fun s t => charListLt t.data s.data) a b

/-- Python `>=` (`run_ge_int` family). -/
def vGe (a b : Val) : Option Val :=
  vCompare (fun x y => decide (y ≤ x)) (fun s t => !charListLt s.data t.data) a b

/-- Python `==` on cell values (never raises; numeric kinds cross-compare,
other kind mismatches compare unequal). -/
def vEqB (a b : Val) : Bool :=
  match vAsRat a, vAsRat b with
  | some x, some y => decide (x = y)
  | _, _ =>
    match a, b with
    | .str s, .str t => decide (s = t)
    | .none, .none => true
    | _, _ => false

/-- Python `==` (`run_eq_int` family). -/
def vEq (a b : Val) : Option Val := some (.bool (vEqB a b))

/-- Python `!=` (`run_ne_int` family). -/
def vNe (a b : Val) : Option Val := some (.bool (!vEqB a b))

/-- Python `and` (truthiness-selecting, as in `run_and_bool`). -/
def vAnd (a b : Val) : Option Val := some (if vTruthy a then b else a)

/-- Python `or` (truthiness-selecting, as in `run_or_bool`). -/
def vOr (a b : Val) : Option Val := some (if vTruthy a then a else b)

/-- Rational truncation toward zero (Python `int(float)`). -/
def ratTrunc (q : Rat) : Int := if q < 0 then -((-q).floor) else q.floor

/-- Python `int(v)` as used by `run_fptosi`; `Option.none` models the
`TypeError`/`ValueError` crash. -/
def vToInt : Val → Option Val
  | .int n => some (.int n)
  | .bool b => some (.int (if b then 1 else 0))
  | .float q => some (.int (ratTrunc q))
  | .str s => (pyIntParse s).map .int
  | .none => Option.none

/-- Python `float(v)` as used by `run_sitofp`; `Option.none` models the
`TypeError`/`ValueError` crash. -/
def vToFloat : Val → Option Val
  | .int n => some (.float (n : Rat))
  | .bool b => some (.float (if b then (1 : Rat) else 0))
  | .float q => some (.float q)
  | .str s => (pyFloatParse s).map .float
  | .none => Option.none

/-- The one-segment special operations of `Interpreter._extract_operation`
(`uc_interpreter.py` line 111).  Note that the source set does NOT contain
`define`, although the specification says it does. -/
def isSpecialOp (s : String) : Bool :=
  s = "fptosi" || s = "sitofp" || s = "label" || s = "jump" || s = "cbranch" || s = "call"

/-- The shape-modifier loop of `Interpreter._extract_operation`: enumerate
the segments past the type tag; a digits-only segment `v` at position `i`
adds `dim i ↦ v`, a `*` segment adds `ptr i ↦ *`, anything else is ignored. -/
def modifierBuild : List String → Nat → List (String × String)
  | [], _ => []
  | v :: vs, i =>
    if pyIsDigit v then ("dim" ++ natToStr i, v) :: modifierBuild vs (i + 1)
    else if v = "*" then ("ptr" ++ natToStr i, v) :: modifierBuild vs (i + 1)
    else modifierBuild vs (i + 1)

/-- `Interpreter._extract_operation` (`uc_interpreter.py` lines 108-120):
split the opcode on `_`; a special first segment stands alone, otherwise the
canonical operation is the first two segments joined and the remaining
segments build the shape-modifier map.  `Option.none` models the
`IndexError` raised on a one-segment non-special opcode. -/
def extractOperation (source : String) : Option (String × List (String × String)) :=
  match (pySplitOn '_' source.data).map String.mk with
  | [] => Option.none
  | a0 :: rest =>
    if isSpecialOp a0 then some (a0, [])
    else
      match rest with
      | [] => Option.none
      | a1 :: rest2 => some (a0 ++ "_" ++ a1, modifierBuild rest2 0)

/-- The `Interpreter` object state (fields set in `__init__`) together with
the module-global memory `M` and the output channels.  `pc`, offsets and
dictionary values are Python ints (`Int`).  The push/pop stacks are modelled
with their top at the head.  `memLen` carries `len(M)` alongside the cell
list (every memory operation maintains it), so that no operation has to
re-traverse the 10000-cell memory. -/
structure Core where
  mem : List Val
  memLen : Nat
  globals : Dict
  vars : Dict
  offset : Int
  stack : List Dict
  sp : List Int
  params : List Int
  registers : List String
  returns : List Int
  pc : Int
  start : Int
  lastpc : Int
  code : List Instr
  debug : Bool
  out : List String
  err : List String

/-- The module-global input state: the not-yet-read lines of `sys.stdin`
(each line exactly as `readline` would return it, trailing newline included
except possibly on the last line) and the token buffer `inputline`. -/
structure Inp where
  stdin : List String
  buffer : List String

/-- The whole machine state: interpreter object plus input state.  The
split mirrors the source, where `inputline` is a module global touched only
by `_get_input` and the `read` handlers. -/
structure St where
  c : Core
  inp : Inp

/-- Result of running one handler on the interpreter object: continue,
`sys.exit`, or an uncaught exception. -/
inductive CRes where
  | ok (c : Core) : CRes
  | exit (v : Val) (c : Core) : CRes
  | crash (c : Core) : CRes

/-- Result of running one handler on the whole state (`fuelOut` models a
Python loop still running when the modelling fuel is exhausted). -/
inductive ERes where
  | ok (s : St) : ERes
  | exit (v : Val) (s : St) : ERes
  | crash (s : St) : ERes
  | fuelOut (s : St) : ERes

/-- Reattach the input state to a core-only handler result. -/
def CRes.lift (i : Inp) : CRes → ERes
  | .ok c => .ok ⟨c, i⟩
  | .exit v c => .exit v ⟨c, i⟩
  | .crash c => .crash ⟨c, i⟩

/-- Sequencing helper: an absent `Option` is an uncaught Python exception. -/
def withOpt {α : Type} (o : Option α) (c : Core) (k : α → CRes) : CRes :=
  match o with
  | some a => k a
  | Option.none => .crash c

/-- `print(x)` produces one output chunk ending in a newline. -/
def pyPrintLine (s : String) : String := s ++ "\n"

/-- Read of the memory cell `M[i]`. -/
def memRead (c : Core) (i : Int) : Option Val := pyGetL c.mem c.memLen i

/-- Write of the memory cell `M[i] = v`. -/
def memWrite (i : Int) (v : Val) (c : Core) : Option Core :=
  (pySetL c.mem c.memLen i v).map (fun m => { c with mem := m })

/-- Memory slice assignment `M[a:b] = v`. -/
def memSplice (a b : Int) (v : List Val) (c : Core) : Core :=
  let p := pySpliceSetL c.mem c.memLen a b v
  { c with mem := p.1, memLen := p.2 }

/-- Memory slice read `M[a:b]`. -/
def memSliceRead (c : Core) (a b : Int) : List Val := pySliceGetL c.mem c.memLen a b

/-- `Interpreter._alloc_reg`: reserve a fresh cell for a new name (no-op if
the name is already bound); does not write memory. -/
def allocReg (target : String) (c : Core) : Core :=
  if (dlookup c.vars target).isSome then c
  else { c with vars := dinsert target c.offset c.vars, offset := c.offset + 1 }

/-- `Interpreter._get_address`: `@`-names resolve in globals, everything
else in the current locals table. -/
def getAddress (source : String) (c : Core) : Option Int :=
  if pyStartsWith source "@" then dlookup c.globals source else dlookup c.vars source

/-- `Interpreter._get_value`: the memory cell named by `source`. -/
def getValue (source : String) (c : Core) : Option Val := do
  let a ← getAddress source c
  memRead c a

/-- `Interpreter._store_value`: write `value` into the cell named by
`target`. -/
def storeValue (target : String) (value : Val) (c : Core) : Option Core := do
  let a ←
    if pyStartsWith target "@" then dlookup c.globals target else dlookup c.vars target
  memWrite a value c

/-- `Interpreter._store_deref`: write `value` through the pointer stored in
the cell named by `target`. -/
def storeDeref (target : String) (value : Val) (c : Core) : Option Core := do
  let a ←
    if pyStartsWith target "@" then dlookup c.globals target else dlookup c.vars target
  let p ← memRead c a
  let i ← vAsIntB p
  memWrite i value c

/-- Conversion of an instruction operand stored directly into a cell
(`M[...] = op[2]`, `M[...] = value`).  See the `Val` doc comment for the
list-valued corner. -/
def opndToVal : Opnd → Val
  | .s s => .str s
  | .i n => .int n
  | .q r => .float r
  | .lst _ => .none
  | .args _ => .none

/-- One-level flattening of a list initializer
(`[item for sublist in value for item in sublist]`): each element must be
iterable (a list yields its elements, a string its characters), otherwise
`TypeError`. -/
def flattenOnce : List Opnd → Option (List Val)
  | [] => some []
  | .lst es :: rest => (flattenOnce rest).map (fun vs => es.map opndToVal ++ vs)
  | .s s :: rest =>
    (flattenOnce rest).map (fun vs => s.data.map (fun ch => Val.str (String.mk [ch])) ++ vs)
  | _ => Option.none

/-- `Interpreter._copy_data`: spread a global initializer over
`size` cells starting at `address` (strings spread one character per cell;
a list containing sublists is flattened once). -/
def copyData (address : Int) (size : Nat) (value : Opnd) (c : Core) : Option Core :=
  match value with
  | .s s =>
    some (memSplice address (address + size) (s.data.map (fun ch => Val.str (String.mk [ch]))) c)
  | .lst items =>
    if items.any (fun it => match it with | .lst _ => true | _ => false) then
      (flattenOnce items).map (fun vs => memSplice address (address + size) vs c)
    else
      some (memSplice address (address + size) (items.map opndToVal) c)
  | _ => Option.none

/-- `Interpreter._store_multiple_values`: blit `dim` cells from the region
named by `value` to the region named by `target`; a string-valued global
source is spread character by character. -/
def storeMultipleValues (dim : Nat) (target value : String) (c : Core) : Option Core := do
  let left ← getAddress target c
  let right ← getAddress value c
  if pyStartsWith value "@" then do
    let v ← memRead c right
    match v with
    | .str s =>
      some (memSplice left (left + dim)
             (s.data.map (fun ch => Val.str (String.mk [ch]))) c)
    | _ =>
      some (memSplice left (left + dim) (memSliceRead c right (right + dim)) c)
  else
    some (memSplice left (left + dim) (memSliceRead c right (right + dim)) c)

/-- `Interpreter._load_multiple_values`: reserve `size` fresh cells for
`target` and blit from `varname`. -/
def loadMultipleValues (size : Nat) (varname target : String) (c : Core) : Option Core :=
  let c := { c with vars := dinsert target c.offset c.vars, offset := c.offset + size }
  storeMultipleValues size target varname c

/-- Loop body of `Interpreter._alloc_labels`, with explicit fuel (the scan
always terminates; the fuel chosen in `allocLabels` is sufficient). -/
def allocLabelsGo (code : List Instr) : Nat → Int → Dict → Dict
  | 0, _, vars => vars
  | f + 1, lpc, vars =>
    match pyGet code lpc with
    | Option.none => vars
    | some op =>
      let lpc' := lpc + 1
      if pyStartsWith op.op "define" then vars
      else if op.args.isEmpty && op.op ≠ "return_void" then
        allocLabelsGo code f lpc' (dinsert ("%" ++ pyDropLastStr op.op) lpc' vars)
      else allocLabelsGo code f lpc' vars

/-- `Interpreter._alloc_labels`: scan forward from `lpc` mapping every label
`name:` to the pc after it, stopping at the next `define` or at the end of
the instruction list. -/
def allocLabels (code : List Instr) (lpc : Int) (vars : Dict) : Dict :=
  allocLabelsGo code (code.length + 1 + lpc.natAbs) lpc vars

/-- Parameters-to-locals copy loop of `Interpreter._push` (`for idx, val in
enumerate(self.params)`); `locs` running out first is the source's
`IndexError`. -/
def pushParams : List Int → List String → Core → Option Core
  | [], _, c => some c
  | _ :: _, [], _ => Option.none
  | v :: vs, l :: ls, c => do
    let mv ← memRead c v
    let c ← memWrite c.offset mv c
    pushParams vs ls
      { c with vars := dinsert l c.offset c.vars, offset := c.offset + 1 }

/-- `Interpreter._push`: save the caller's locals table and offset, start a
fresh locals table (with an empty-initialized `%0` for void functions), copy
the pending parameters into fresh cells, clear the parameter list, and
pre-resolve the labels of the entered function. -/
def pushFrame (locs : List String) (noReturn : Bool) (c : Core) : Option Core := do
  let c := { c with stack := c.vars :: c.stack, sp := c.offset :: c.sp, vars := [] }
  let c ←
    if noReturn then do
      let c := allocReg "%0" c
      let a ← dlookup c.vars "%0"
      memWrite a .none c
    else some c
  let c ← pushParams c.params locs c
  let c := { c with params := [] }
  some { c with vars := allocLabels c.code c.pc c.vars }

/-- `Interpreter._pop`: on a nonempty return stack, restore the caller's
locals table, write the returned value into the caller's target-register
cell, restore the offset and jump to the return pc; on an empty return
stack, `sys.exit` with the value at the return cell (0 for a void main). -/
def popFrame (target : Val) (c : Core) : CRes :=
  if c.returns.isEmpty then
    match target with
    | .none => .exit (.int 0) c
    | _ =>
      withOpt (vAsIntB target) c fun i =>
      withOpt (memRead c i) c fun v => .exit v c
  else
    withOpt (if vTruthy target then
               (do let i ← vAsIntB target; memRead c i)
             else some .none) c fun value =>
    match c.stack with
    | [] => .crash c
    | vars' :: stack' =>
      match c.registers with
      | [] => .crash c
      | r :: regs' =>
        withOpt (dlookup vars' r) c fun ra =>
        withOpt (memWrite ra value c) c fun c' =>
        match c'.sp with
        | [] => .crash c'
        | o :: sp' =>
          match c'.returns with
          | [] => .crash c'
          | p :: rts' =>
            .ok { c' with vars := vars', stack := stack',
                          registers := regs', sp := sp', offset := o,
                          returns := rts', pc := p }

/-- The type of a scalar or shaped handler operating only on the
interpreter object (no input). -/
abbrev CoreHandler := List Opnd → Core → CRes

/-- Product of the digit-valued shape-modifier entries
(`for arg in kwargs.values(): if arg.isdigit(): _dim *= int(arg)`). -/
def kwargsDim (mods : List (String × String)) : Nat :=
  mods.foldl (fun d kv => if pyIsDigit kv.2 then d * pyDigitsVal kv.2.data 0 else d) 1

/-- Number of `*`-valued shape-modifier entries. -/
def kwargsRef (mods : List (String × String)) : Nat :=
  mods.foldl (fun r kv => if kv.2 = "*" then r + 1 else r) 0

/-- `run_alloc_int` (also aliased as `run_alloc_float`, `run_alloc_char`):
reserve one cell and zero-initialize it. -/
def runAllocInt : CoreHandler := fun args c =>
  match args with
  | [.s varname] =>
    let c := allocReg varname c
    withOpt (dlookup c.vars varname) c fun a =>
    withOpt (memWrite a (.int 0) c) c fun c' => .ok c'
  | _ => .crash c

/-- `run_alloc_int_` (also `run_alloc_float_`, `run_alloc_char_`): reserve
`dim` cells (product of the numeric shape entries) and zero-fill them. -/
def runAllocShaped (mods : List (String × String)) : CoreHandler := fun args c =>
  match args with
  | [.s varname] =>
    let dim := kwargsDim mods
    let c := { c with vars := dinsert varname c.offset c.vars }
    let c := memSplice c.offset (c.offset + dim) (List.replicate dim (Val.int 0)) c
    .ok { c with offset := c.offset + dim }
  | _ => .crash c

/-- `run_call`: allocate the target register in the caller, push it on the
register stack, push the return pc, and jump to the entry pc stored at the
function's cell (a non-`int` entry would make the next fetch raise). -/
def runCall : CoreHandler := fun args c =>
  match args with
  | [.s source, .s target] =>
    let c := allocReg target c
    let c := { c with registers := target :: c.registers, returns := c.pc :: c.returns }
    withOpt (if pyStartsWith source "@" then dlookup c.globals source
             else dlookup c.vars source) c fun a =>
    withOpt (memRead c a) c fun v =>
    match v with
    | .int p => .ok { c with pc := p }
    | _ => .crash c
  | _ => .crash c

/-- `run_cbranch`: jump to the label whose locals entry matches the
truthiness of the test cell (test and labels resolve in the locals table
only). -/
def runCbranch : CoreHandler := fun args c =>
  match args with
  | [.s exprTest, .s trueTarget, .s falseTarget] =>
    withOpt (dlookup c.vars exprTest) c fun a =>
    withOpt (memRead c a) c fun v =>
    if vTruthy v then
      withOpt (dlookup c.vars trueTarget) c fun p => .ok { c with pc := p }
    else
      withOpt (dlookup c.vars falseTarget) c fun p => .ok { c with pc := p }
  | _ => .crash c

/-- `run_define_int` (also `run_define_float`, `run_define_char`): entering
`@main` allocates `%0` and pre-resolves labels; entering any other function
pushes a new activation frame (value-returning flavour). -/
def runDefineTyped : CoreHandler := fun args c =>
  match args with
  | [.s source, .args argl] =>
    if source = "@main" then
      let c := allocReg "%0" c
      .ok { c with vars := allocLabels c.code c.pc c.vars }
    else
      withOpt (pushFrame (argl.map Prod.snd) false c) c fun c' => .ok c'
  | _ => .crash c

/-- `run_define_void`: as `run_define_int`, but a non-main function gets an
empty-initialized `%0` return cell. -/
def runDefineVoid : CoreHandler := fun args c =>
  match args with
  | [.s source, .args argl] =>
    if source = "@main" then
      let c := allocReg "%0" c
      .ok { c with vars := allocLabels c.code c.pc c.vars }
    else
      withOpt (pushFrame (argl.map Prod.snd) true c) c fun c' => .ok c'
  | _ => .crash c

/-- `run_elem_int` (also `_float`, `_char`): target receives
`address(source) + value(index)` (Python `+`, so a float index silently
produces a float address). -/
def runElem : CoreHandler := fun args c =>
  match args with
  | [.s source, .s index, .s target] =>
    let c := allocReg target c
    withOpt (getAddress source c) c fun aux =>
    withOpt (getValue index c) c fun iv =>
    withOpt (vAdd (.int aux) iv) c fun av =>
    withOpt (storeValue target av c) c fun c' => .ok c'
  | _ => .crash c

/-- `run_get_int` (scalar): documented as never generated; a no-op. -/
def runGetInt : CoreHandler := fun args c =>
  match args with
  | [.s _, .s _] => .ok c
  | _ => .crash c

/-- `run_get_int_` (also `_float_`, `_char_`): target receives the address
of `source` (pointer-of); the shape kwargs are ignored. -/
def runGetShaped : CoreHandler := fun args c =>
  match args with
  | [.s source, .s target] =>
    withOpt (getAddress source c) c fun a =>
    withOpt (storeValue target (.int a) c) c fun c' => .ok c'
  | _ => .crash c

/-- `run_jump`: pc becomes the locals entry of the label operand. -/
def runJump : CoreHandler := fun args c =>
  match args with
  | [.s target] =>
    withOpt (dlookup c.vars target) c fun p => .ok { c with pc := p }
  | _ => .crash c

/-- `run_literal_int` (also `run_literal_float`): allocate the target and
store the literal operand as-is. -/
def runLiteralInt : CoreHandler := fun args c =>
  match args with
  | [v, .s target] =>
    let c := allocReg target c
    withOpt (dlookup c.vars target) c fun a =>
    withOpt (memWrite a (opndToVal v) c) c fun c' => .ok c'
  | _ => .crash c

/-- Python `value.strip("'")`: remove all leading and trailing
single-quote characters. -/
def pyStripQuotes (s : String) : String :=
  let q := Char.ofNat 39
  String.mk (((s.data.dropWhile (· = q)).reverse.dropWhile (· = q)).reverse)

/-- `run_literal_char`: allocate the target and store the operand with its
surrounding quotes stripped (a non-string operand raises). -/
def runLiteralChar : CoreHandler := fun args c =>
  match args with
  | [.s v, .s target] =>
    let c := allocReg target c
    withOpt (dlookup c.vars target) c fun a =>
    withOpt (memWrite a (.str (pyStripQuotes v)) c) c fun c' => .ok c'
  | _ => .crash c

/-- `run_load_int` (also `_float`, `_char`, `_bool`): copy the cell named by
`varname` into a (possibly fresh) target cell. -/
def runLoadInt : CoreHandler := fun args c =>
  match args with
  | [.s varname, .s target] =>
    let c := allocReg target c
    withOpt (getValue varname c) c fun v =>
    withOpt (dlookup c.vars target) c fun a =>
    withOpt (memWrite a v c) c fun c' => .ok c'
  | _ => .crash c

/-- `run_load_int_` (also `_float_`, `_char_`): dims only → multi-cell blit
into fresh cells; single `*` → dereferencing load; any other shape is a
silent no-op. -/
def runLoadShaped (mods : List (String × String)) : CoreHandler := fun args c =>
  match args with
  | [.s varname, .s target] =>
    let ref := kwargsRef mods
    let dim := kwargsDim mods
    if ref = 0 then
      withOpt (loadMultipleValues dim varname target c) c fun c' => .ok c'
    else if dim = 1 && ref = 1 then
      let c := allocReg target c
      withOpt (getValue varname c) c fun p =>
      withOpt (vAsIntB p) c fun i =>
      withOpt (memRead c i) c fun v =>
      withOpt (dlookup c.vars target) c fun a =>
      withOpt (memWrite a v c) c fun c' => .ok c'
    else .ok c
  | _ => .crash c

/-- `run_param_int` (also `_float`, `_char`): append the operand's locals
address to the pending-parameters list (locals table only). -/
def runParamInt : CoreHandler := fun args c =>
  match args with
  | [.s source] =>
    withOpt (dlookup c.vars source) c fun a =>
    .ok { c with params := c.params ++ [a] }
  | _ => .crash c

/-- `run_print_string`: print the character-sequence value character by
character (no newline). -/
def runPrintString : CoreHandler := fun args c =>
  match args with
  | [.s source] =>
    withOpt (getValue source c) c fun v =>
    match v with
    | .str s => .ok { c with out := c.out ++ s.data.map (fun ch => String.mk [ch]) }
    | _ => .crash c
  | _ => .crash c

/-- `run_print_int` (also `_float`, `_char`, `_bool`): print the cell value
(no newline). -/
def runPrintInt : CoreHandler := fun args c =>
  match args with
  | [.s source] =>
    withOpt (getValue source c) c fun v =>
    .ok { c with out := c.out ++ [pyStr v] }
  | _ => .crash c

/-- `run_print_void`: print a newline. -/
def runPrintVoid : CoreHandler := fun args c =>
  match args with
  | [] => .ok { c with out := c.out ++ ["\n"] }
  | _ => .crash c

/-- `run_return_int` (also `_float`, `_char`): pop the activation with the
locals ADDRESS of the return operand. -/
def runReturnInt : CoreHandler := fun args c =>
  match args with
  | [.s target] =>
    withOpt (dlookup c.vars target) c fun a => popFrame (.int a) c
  | _ => .crash c

/-- `run_return_void`: pop the activation with the VALUE stored in `%0`. -/
def runReturnVoid : CoreHandler := fun args c =>
  match args with
  | [] =>
    withOpt (dlookup c.vars "%0") c fun a =>
    withOpt (memRead c a) c fun v => popFrame v c
  | _ => .crash c

/-- `run_store_int` (also `_float`, `_char`, `_bool`): copy the value named
by `source` into the cell named by `target` (no allocation). -/
def runStoreInt : CoreHandler := fun args c =>
  match args with
  | [.s source, .s target] =>
    withOpt (getValue source c) c fun v =>
    withOpt (storeValue target v c) c fun c' => .ok c'
  | _ => .crash c

/-- `run_store_int_` (also `_float_`, `_char_`): dims only → multi-cell
blit; single `*` → write-through-pointer; any other shape is a silent
no-op. -/
def runStoreShaped (mods : List (String × String)) : CoreHandler := fun args c =>
  match args with
  | [.s source, .s target] =>
    let ref := kwargsRef mods
    let dim := kwargsDim mods
    if ref = 0 then
      withOpt (storeMultipleValues dim target source c) c fun c' => .ok c'
    else if dim = 1 && ref = 1 then
      withOpt (getValue source c) c fun v =>
      withOpt (storeDeref target v c) c fun c' => .ok c'
    else .ok c
  | _ => .crash c

/-- Shared shape of the binary arithmetic/relational/logical handlers
(`run_add_int` etc., `uc_interpreter.py` lines 639-719): allocate the
target, then `M[vars[target]] = M[vars[left]] ⊙ M[vars[right]]` — all three
operands resolve through the locals table only. -/
def runBinop (f : Val → Val → Option Val) : CoreHandler := fun args c =>
  match args with
  | [.s left, .s right, .s target] =>
    let c := allocReg target c
    withOpt (dlookup c.vars left) c fun la =>
    withOpt (memRead c la) c fun lv =>
    withOpt (dlookup c.vars right) c fun ra =>
    withOpt (memRead c ra) c fun rv =>
    withOpt (f lv rv) c fun v =>
    withOpt (dlookup c.vars target) c fun ta =>
    withOpt (memWrite ta v c) c fun c' => .ok c'
  | _ => .crash c

/-- `run_not_bool`: target receives the negated truthiness of the source
(which resolves through `_get_value`, so `@` operands are accepted). -/
def runNotBool : CoreHandler := fun args c =>
  match args with
  | [.s source, .s target] =>
    let c := allocReg target c
    withOpt (getValue source c) c fun v =>
    withOpt (dlookup c.vars target) c fun a =>
    withOpt (memWrite a (.bool (!vTruthy v)) c) c fun c' => .ok c'
  | _ => .crash c

/-- `run_sitofp`: target receives `float(value(source))`. -/
def runSitofp : CoreHandler := fun args c =>
  match args with
  | [.s source, .s target] =>
    let c := allocReg target c
    withOpt (getValue source c) c fun v =>
    withOpt (vToFloat v) c fun fv =>
    withOpt (dlookup c.vars target) c fun a =>
    withOpt (memWrite a fv c) c fun c' => .ok c'
  | _ => .crash c

/-- `run_fptosi`: target receives `int(value(source))`. -/
def runFptosi : CoreHandler := fun args c =>
  match args with
  | [.s source, .s target] =>
    let c := allocReg target c
    withOpt (getValue source c) c fun v =>
    withOpt (vToInt v) c fun iv =>
    withOpt (dlookup c.vars target) c fun a =>
    withOpt (memWrite a iv c) c fun c' => .ok c'
  | _ => .crash c

/-- The buffer-refill expression of `Interpreter._get_input`
(`inputline = inputline[:-1].strip().split()`): the line's last character is
removed unconditionally, then the rest is whitespace-split into tokens. -/
def refillBuffer (line : String) : List String :=
  (pySplitWS (pyStrip line.data.dropLast)).map String.mk

/-- Loop of `Interpreter._get_input`, with fuel: refill the token buffer
from one whitespace-split line (after unconditionally removing the line's
last character); at end of input, print "Unexpected end of input file." and
try again — the source loops forever at EOF.  Returns the refilled input
state (or `Option.none` when the fuel runs out, i.e. the loop is still
running) together with the diagnostics printed so far. -/
def getInputGo : Nat → Inp → Option Inp × List String
  | 0, _ => (Option.none, [])
  | f + 1, inp =>
    if inp.buffer ≠ [] then (some inp, [])
    else
      let (line, stdin') :=
        match inp.stdin with
        | [] => ("", ([] : List String))
        | l :: r => (l, r)
      let msgs := if line = "" then [pyPrintLine "Unexpected end of input file."] else []
      let (res, more) := getInputGo f ⟨stdin', refillBuffer line⟩
      (res, msgs ++ more)

/-- Result of the `_read_T` token helpers. -/
inductive ReadRes where
  | fuelOut (s : St) : ReadRes
  | crash (s : St) : ReadRes
  | ok (v : Val) (s : St) : ReadRes

/-- `Interpreter._read_int`: refill the buffer, pop the next token, try
`int(token)` and fall back to the raw token on a parse failure.  The
"Illegal input value." diagnostic lives in the outer `except`, which is
reached only on an empty buffer — unreachable after a successful
`_get_input` — and is followed by a `return v2` `NameError` crash. -/
def readIntHelper (fuel : Nat) (st : St) : ReadRes :=
  let (r, msgs) := getInputGo fuel st.inp
  let st := { st with c := { st.c with out := st.c.out ++ msgs } }
  match r with
  | Option.none => .fuelOut st
  | some inp' =>
    match inp'.buffer with
    | [] =>
      .crash { st with inp := inp',
                       c := { st.c with out := st.c.out ++ [pyPrintLine "Illegal input value."] } }
    | v1 :: rest =>
      let st := { st with inp := { inp' with buffer := rest } }
      .ok (match pyIntParse v1 with | some n => .int n | Option.none => .str v1) st

/-- `Interpreter._read_float`: as `_read_int` with `float(token)`. -/
def readFloatHelper (fuel : Nat) (st : St) : ReadRes :=
  let (r, msgs) := getInputGo fuel st.inp
  let st := { st with c := { st.c with out := st.c.out ++ msgs } }
  match r with
  | Option.none => .fuelOut st
  | some inp' =>
    match inp'.buffer with
    | [] =>
      .crash { st with inp := inp',
                       c := { st.c with out := st.c.out ++ [pyPrintLine "Illegal input value."] } }
    | v1 :: rest =>
      let st := { st with inp := { inp' with buffer := rest } }
      .ok (match pyFloatParse v1 with | some q => .float q | Option.none => .str v1) st

/-- The type of a handler that may consume input (the `read` family);
the fuel bounds the `_get_input` refill loop. -/
abbrev StHandler := Nat → List Opnd → St → ERes

/-- Store helper shared by the scalar `read` handlers. -/
def readStore (store : String → Val → Core → Option Core)
    (source : String) (r : ReadRes) : ERes :=
  match r with
  | .fuelOut s => .fuelOut s
  | .crash s => .crash s
  | .ok v s =>
    match store source v s.c with
    | some c' => .ok { s with c := c' }
    | Option.none => .crash s

/-- `run_read_int`: read a token (raw characters on a parse failure) and
store it into the named cell. -/
def runReadInt : StHandler := fun fuel args st =>
  match args with
  | [.s source] => readStore storeValue source (readIntHelper fuel st)
  | _ => .crash st

/-- `run_read_int_`: as `run_read_int`, storing through a pointer (the
shape kwargs are ignored). -/
def runReadIntShaped : StHandler := fun fuel args st =>
  match args with
  | [.s source] => readStore storeDeref source (readIntHelper fuel st)
  | _ => .crash st

/-- `run_read_float`. -/
def runReadFloat : StHandler := fun fuel args st =>
  match args with
  | [.s source] => readStore storeValue source (readFloatHelper fuel st)
  | _ => .crash st

/-- `run_read_float_`. -/
def runReadFloatShaped : StHandler := fun fuel args st =>
  match args with
  | [.s source] => readStore storeDeref source (readFloatHelper fuel st)
  | _ => .crash st

/-- `run_read_char`: refill, pop the next whole token (no parsing, no
diagnostic; an empty buffer raises `IndexError` directly). -/
def runReadChar : StHandler := fun fuel args st =>
  match args with
  | [.s source] =>
    let (r, msgs) := getInputGo fuel st.inp
    let st := { st with c := { st.c with out := st.c.out ++ msgs } }
    match r with
    | Option.none => .fuelOut st
    | some inp' =>
      match inp'.buffer with
      | [] => .crash { st with inp := inp' }
      | v1 :: rest =>
        let st := { st with inp := { inp' with buffer := rest } }
        match storeValue source (.str v1) st.c with
        | some c' => .ok { st with c := c' }
        | Option.none => .crash st
  | _ => .crash st

/-- `run_read_char_`. -/
def runReadCharShaped : StHandler := fun fuel args st =>
  match args with
  | [.s source] =>
    let (r, msgs) := getInputGo fuel st.inp
    let st := { st with c := { st.c with out := st.c.out ++ msgs } }
    match r with
    | Option.none => .fuelOut st
    | some inp' =>
      match inp'.buffer with
      | [] => .crash { st with inp := inp' }
      | v1 :: rest =>
        let st := { st with inp := { inp' with buffer := rest } }
        match storeDeref source (.str v1) st.c with
        | some c' => .ok { st with c := c' }
        | Option.none => .crash st
  | _ => .crash st

/-- The scalar handler methods of `Interpreter` that touch only the
interpreter object, keyed by canonical operation, with the source's
aliasing (`run_alloc_float = run_alloc_int`, ...).  Note `mod_float` has no
handler in the source, and neither do scalar `get_float`/`get_char`. -/
def scalarCore (canon : String) : Option CoreHandler :=
  match canon with
  | "alloc_int" | "alloc_float" | "alloc_char" => some runAllocInt
  | "call" => some runCall
  | "cbranch" => some runCbranch
  | "define_int" | "define_float" | "define_char" => some runDefineTyped
  | "define_void" => some runDefineVoid
  | "elem_int" | "elem_float" | "elem_char" => some runElem
  | "get_int" => some runGetInt
  | "jump" => some runJump
  | "literal_int" | "literal_float" => some runLiteralInt
  | "literal_char" => some runLiteralChar
  | "load_int" | "load_float" | "load_char" | "load_bool" => some runLoadInt
  | "param_int" | "param_float" | "param_char" => some runParamInt
  | "print_string" => some runPrintString
  | "print_int" | "print_float" | "print_char" | "print_bool" => some runPrintInt
  | "print_void" => some runPrintVoid
  | "return_int" | "return_float" | "return_char" => some runReturnInt
  | "return_void" => some runReturnVoid
  | "store_int" | "store_float" | "store_char" | "store_bool" => some runStoreInt
  | "add_int" | "add_float" => some (runBinop vAdd)
  | "sub_int" | "sub_float" => some (runBinop vSub)
  | "mul_int" | "mul_float" => some (runBinop vMul)
  | "mod_int" => some (runBinop vMod)
  | "div_int" => some (runBinop vFloorDiv)
  | "div_float" => some (runBinop vTrueDiv)
  | "lt_int" | "lt_float" | "lt_char" => some (runBinop vLt)
  | "le_int" | "le_float" | "le_char" => some (runBinop vLe)
  | "gt_int" | "gt_float" | "gt_char" => some (runBinop vGt)
  | "ge_int" | "ge_float" | "ge_char" => some (runBinop vGe)
  | "eq_int" | "eq_float" | "eq_char" | "eq_bool" => some (runBinop vEq)
  | "ne_int" | "ne_float" | "ne_char" | "ne_bool" => some (runBinop vNe)
  | "and_bool" => some (runBinop vAnd)
  | "or_bool" => some (runBinop vOr)
  | "not_bool" => some runNotBool
  | "sitofp" => some runSitofp
  | "fptosi" => some runFptosi
  | _ => Option.none

/-- The scalar handler methods that consume input. -/
def scalarRead (canon : String) : Option StHandler :=
  match canon with
  | "read_int" => some runReadInt
  | "read_float" => some runReadFloat
  | "read_char" => some runReadChar
  | _ => Option.none

/-- The shaped handler methods (`run_X_`) that touch only the interpreter
object, keyed by canonical operation. -/
def shapedCore (canon : String) : Option (List (String × String) → CoreHandler) :=
  match canon with
  | "alloc_int" | "alloc_float" | "alloc_char" => some runAllocShaped
  | "get_int" | "get_float" | "get_char" => some (fun _ => runGetShaped)
  | "load_int" | "load_float" | "load_char" => some runLoadShaped
  | "store_int" | "store_float" | "store_char" => some runStoreShaped
  | _ => Option.none

/-- The shaped handler methods that consume input (their kwargs are
ignored). -/
def shapedRead (canon : String) : Option StHandler :=
  match canon with
  | "read_int" => some runReadIntShaped
  | "read_float" => some runReadFloatShaped
  | "read_char" => some runReadCharShaped
  | _ => Option.none

/-- `hasattr(self, "run_" + opcode)`: the canonical operation names a
scalar handler method. -/
def hasHandler (canon : String) : Bool :=
  (scalarCore canon).isSome || (scalarRead canon).isSome

/-- Dispatch of a decoded instruction (`Interpreter.run`, lines 261-268):
with a registered scalar handler and an empty shape, call the scalar
variant; with a non-empty shape call the `run_X_` variant (its absence is
an uncaught `AttributeError`); with no registered handler, print a warning
and continue. -/
def execDecoded (fuel : Nat) (canon : String) (mods : List (String × String))
    (args : List Opnd) (s : St) : ERes :=
  if hasHandler canon then
    if mods.isEmpty then
      match scalarRead canon with
      | some h => h fuel args s
      | Option.none =>
        match scalarCore canon with
        | some h => (h args s.c).lift s.inp
        | Option.none => .crash s
    else
      match shapedRead canon with
      | some h => h fuel args s
      | Option.none =>
        match shapedCore canon with
        | some h => (h mods args s.c).lift s.inp
        | Option.none => .crash s
  else
    .ok { s with c := { s.c with
            out := s.c.out ++ [pyPrintLine ("Warning: No run_" ++ canon ++ "() method")] } }

/-- One dispatched instruction of the main loop (the `if len(op) > 1 or
op[0] == 'return_void' or op[0] == 'print_void'` guard, decode, dispatch);
the pc has already been advanced by the loop. -/
def execInstr (fuel : Nat) (op : Instr) (s : St) : ERes :=
  if op.args.length > 0 || op.op = "return_void" || op.op = "print_void" then
    match extractOperation op.op with
    | Option.none => .crash s
    | some (canon, mods) => execDecoded fuel canon mods op.args s
  else .ok s

/-- Join strings with a separator (Python `sep.join`). -/
def joinSep (sep : String) : List String → String
  | [] => ""
  | [x] => x
  | x :: xs => x ++ sep ++ joinSep sep xs

/-- Python `repr` of an operand as it appears inside a printed list
(string quoting is approximated without escape handling). -/
def pyReprOpnd : Opnd → String
  | .s s => "'" ++ s ++ "'"
  | .i n => intToStr n
  | .q r => floatToStr r
  | .lst es => "[" ++ joinSep ", " (es.map (fun e =>
      match e with
      | .s s => "'" ++ s ++ "'"
      | .i n => intToStr n
      | .q r => floatToStr r
      | _ => "...")) ++ "]"
  | .args l => "[" ++ joinSep ", " (l.map (fun p => "('" ++ p.1 ++ "', '" ++ p.2 ++ "')")) ++ "]"

/-- Python `str` of an operand (as interpolated by the f-strings of
`format_instruction`). -/
def pyStrOpnd : Opnd → String
  | .s s => s
  | .i n => intToStr n
  | .q r => floatToStr r
  | .lst es => "[" ++ joinSep ", " (es.map pyReprOpnd) ++ "]"
  | .args l => "[" ++ joinSep ", " (l.map (fun p => "('" ++ p.1 ++ "', '" ++ p.2 ++ "')")) ++ "]"

/-- `format_instruction` (`uc_interpreter.py` lines 16-53); `Option.none`
models an exception raised while formatting a malformed tuple. -/
def formatInstruction (t : Instr) : Option String :=
  let operand := (pySplitOn '_' t.op.data).map String.mk
  let op := operand.headD ""
  let ty : Option String :=
    match operand with
    | _ :: t1 :: rest =>
      some (rest.foldl (fun acc q => if q = "*" then acc ++ "*" else acc ++ " [" ++ q ++ "]") t1)
    | _ => Option.none
  let tyS := match ty with | some s => s | Option.none => "None"
  if t.args.length > 0 then
    if op = "define" then
      match t.args with
      | a1 :: .args l :: _ =>
        some (op ++ " " ++ tyS ++ " " ++ pyStrOpnd a1 ++ " " ++
              joinSep ", " (l.map (fun p => p.1 ++ " " ++ p.2)))
      | _ => Option.none
    else
      let pre := if op = "global" then "" else "  "
      if op = "jump" then
        match t.args with
        | a1 :: _ => some (pre ++ op ++ " label " ++ pyStrOpnd a1)
        | _ => Option.none
      else if op = "cbranch" then
        match t.args with
        | a1 :: a2 :: a3 :: _ =>
          some (pre ++ op ++ " " ++ pyStrOpnd a1 ++ " label " ++ pyStrOpnd a2 ++
                " label " ++ pyStrOpnd a3)
        | _ => Option.none
      else if op = "global" then
        match ty with
        | Option.none => Option.none
        | some tys =>
          if pyStartsWith tys "string" then
            match t.args with
            | a1 :: a2 :: _ =>
              some (pre ++ pyStrOpnd a1 ++ " = " ++ op ++ " " ++ tys ++ " '" ++ pyStrOpnd a2 ++ "'")
            | _ => Option.none
          else
            match t.args.getLast? with
            | some alast =>
              some ((t.args.dropLast.foldl (fun acc el => acc ++ pyStrOpnd el ++ " ")
                     (pre ++ pyStrOpnd alast ++ " = " ++ op ++ " " ++ tys ++ " ")))
            | Option.none => Option.none
      else if op = "return" then
        match t.args with
        | a1 :: _ => some (pre ++ op ++ " " ++ tyS ++ " " ++ pyStrOpnd a1)
        | _ => Option.none
      else if op = "store" then
        some (t.args.foldl (fun acc el => acc ++ pyStrOpnd el ++ " ")
              (pre ++ op ++ " " ++ tyS ++ " "))
      else
        match t.args.getLast? with
        | some alast =>
          some (t.args.dropLast.foldl (fun acc el => acc ++ pyStrOpnd el ++ " ")
                (pre ++ pyStrOpnd alast ++ " = " ++ op ++ " " ++ tyS ++ " "))
        | Option.none => Option.none
  else if ty = some "void" then
    some ("  " ++ op)
  else
    some op

/-- `range(a, b)` over Python ints. -/
def intRange (a b : Int) : List Int :=
  (List.range (b - a).toNat).map (fun k => a + (k : Int))

/-- The window-printing loop of `Interpreter._idb`: formatted lines and a
flag telling whether the loop completed without raising (a raise keeps the
lines already printed). -/
def idbLines : List Int → Int → Core → List String × Bool
  | [], _, _ => ([], true)
  | i :: is, pos, c =>
    match pyGet c.code i with
    | Option.none => ([], false)
    | some op =>
      match formatInstruction op with
      | Option.none => ([], false)
      | some fs =>
        let (rest, ok) := idbLines is pos c
        (pyPrintLine (intToStr i ++ (if i = pos then ": >> " else ":    ") ++ fs) :: rest, ok)

/-- The examine loop of the debugger's `e`/`ex` command. -/
def exLines : List String → Core → List String × Bool
  | [], _ => ([], true)
  | v :: vs, c =>
    if pyStartsWith v "%" then
      match dlookup c.vars v with
      | Option.none => ([], false)
      | some a =>
        match memRead c a with
        | Option.none => ([], false)
        | some mv =>
          let (rest, ok) := exLines vs c
          (pyPrintLine (v ++ " : " ++ pyStr mv) :: rest, ok)
    else if pyStartsWith v "@" then
      match dlookup c.globals v with
      | Option.none => ([], false)
      | some a =>
        match memRead c a with
        | Option.none => ([], false)
        | some mv =>
          let (rest, ok) := exLines vs c
          (pyPrintLine (v ++ " : " ++ pyStr mv) :: rest, ok)
    else
      let (rest, ok) := exLines vs c
      (pyPrintLine (v ++ ": unrecognized var or temp") :: rest, ok)

/-- The listing loop of the debugger's `l`/`list` command. -/
def listLines : List Int → Core → List String × Bool
  | [], _ => ([], true)
  | i :: is, c =>
    match pyGet c.code i with
    | Option.none => ([], false)
    | some op =>
      match formatInstruction op with
      | Option.none => ([], false)
      | some fs =>
        let (rest, ok) := listLines is c
        (pyPrintLine (intToStr i ++ ":    " ++ fs) :: rest, ok)

/-- The help text printed by `Interpreter._show_idb_help`. -/
def helpMsg : String :=
  " \n          s, step: run in step mode;\n          g, go <pc>:  goto the program counter;\n          l, list \x7b<start> <end>\x7d? : List the ir code;\n          e, ex \x7b<vars>\x7d+ : Examine the variables;\n          v, view : show he current line of execution;\n          r, run : run (twerminate) the program in normal mode;\n          q, quit : quit (abort) the program;\n          h, help: print this text.\n        "

/-- Python `input()`: the line with its trailing newline removed. -/
def stripNL (s : String) : String :=
  if s.data.getLast? = some '\n' then String.mk s.data.dropLast else s

/-- Result of a debugger interaction (`_idb` / `_parse_input`): the
breakpoint value returned (`none` = step, `some 0` = quit sentinel), a
raised exception escaping `_idb`, or fuel exhaustion. -/
inductive DbgRes where
  | fuelOut (s : St) : DbgRes
  | raised (s : St) : DbgRes
  | done (bp : Option Int) (s : St) : DbgRes

/-- Combined `Interpreter._idb` (on `Sum.inl pos`) and
`Interpreter._parse_input` (on `Sum.inr ()`), fuelled; the two source
methods are mutually recursive through the `v`/`view` command. -/
def dbgGo : Nat → Sum Int Unit → St → DbgRes
  | 0, _, s => .fuelOut s
  | f + 1, .inl pos, s =>
    let init := if pos - 2 < 1 then 1 else pos - 2
    let e := if pos + 3 ≥ s.c.lastpc then s.c.lastpc else pos + 3
    let (lines, ok) := idbLines (intRange init e) pos s.c
    let s := { s with c := { s.c with out := s.c.out ++ lines } }
    if ok then
      dbgGo f (.inr ()) { s with c := { s.c with out := s.c.out ++ ["\n"] } }
    else .raised s
  | f + 1, .inr _, s =>
    let s := { s with c := { s.c with out := s.c.out ++ ["idb> "] } }
    match s.inp.stdin with
    | [] =>
      dbgGo f (.inr ())
        { s with c := { s.c with out := s.c.out ++ [pyPrintLine "unrecognized command"] } }
    | line :: rest =>
      let s := { s with inp := { s.inp with stdin := rest } }
      let cmd := (pySplitOn ' ' (pyStrip (stripNL line).data)).map String.mk
      let excLoop : St → DbgRes := fun s =>
        dbgGo f (.inr ())
          { s with c := { s.c with out := s.c.out ++ [pyPrintLine "unrecognized command"] } }
      match cmd with
      | [] => excLoop s
      | c0 :: crest =>
        if c0 = "s" || c0 = "step" then .done Option.none s
        else if c0 = "g" || c0 = "go" then
          match crest with
          | [] => excLoop s
          | a :: _ =>
            match pyIntParse a with
            | some n => .done (some n) s
            | Option.none => excLoop s
        else if c0 = "e" || c0 = "ex" then
          let (lines, ok) := exLines crest s.c
          let s := { s with c := { s.c with out := s.c.out ++ lines } }
          if ok then dbgGo f (.inr ()) s else excLoop s
        else if c0 = "l" || c0 = "list" then
          let bounds : Option (Int × Int) :=
            if crest.length = 2 then
              match pyIntParse (crest.headD ""), pyIntParse (crest.getLastD "") with
              | some a, some b => some (a, b)
              | _, _ => Option.none
            else some (1, s.c.lastpc)
          match bounds with
          | Option.none => excLoop s
          | some (a, b) =>
            let (lines, ok) := listLines (intRange a b) s.c
            let s := { s with c := { s.c with out := s.c.out ++ lines } }
            if ok then dbgGo f (.inr ()) s else excLoop s
        else if c0 = "v" || c0 = "view" then
          match dbgGo f (.inl s.c.pc) s with
          | .fuelOut s' => .fuelOut s'
          | .raised s' => excLoop s'
          | .done _ s' => dbgGo f (.inr ()) s'
        else if c0 = "r" || c0 = "run" then
          .done Option.none { s with c := { s.c with debug := false } }
        else if c0 = "q" || c0 = "quit" then .done (some 0) s
        else if c0 = "h" || c0 = "help" then
          dbgGo f (.inr ()) { s with c := { s.c with out := s.c.out ++ [pyPrintLine helpMsg] } }
        else
          dbgGo f (.inr ())
            { s with c := { s.c with out := s.c.out ++ [pyPrintLine (c0 ++ " : unrecognized command")] } }

/-- `Interpreter._idb`. -/
def idbGo (fuel : Nat) (pos : Int) (s : St) : DbgRes := dbgGo fuel (.inl pos) s

/-- Result of the main execution loop (`Interpreter.run`, second loop):
`exited` is `sys.exit`, `fell` is the `IndexError → break` path (the `run`
method returns and the process goes on), `crashed` is an uncaught
exception, `fuelOut` is a still-running loop (the carried state is the
snapshot when the fuel ran out). -/
inductive RunRes where
  | exited (v : Val) (s : St) : RunRes
  | fell (s : St) : RunRes
  | crashed (s : St) : RunRes
  | fuelOut (s : St) : RunRes

/-- The debugger hook at the top of each loop iteration (`uc_interpreter.py`
lines 249-255): a `0` breakpoint exits with code 0; a matching breakpoint
or plain debug mode hands control to `_idb`. -/
def dbgHook (f : Nat) (bp : Option Int) (s : St) : Sum RunRes (Option Int × St) :=
  match bp with
  | some b =>
    if b = 0 then .inl (.exited (.int 0) s)
    else if s.c.pc = b then
      match idbGo f s.c.pc s with
      | .fuelOut s' => .inl (.fuelOut s')
      | .raised s' => .inl (.fell s')
      | .done bp' s' => .inr (bp', s')
    else .inr (some b, s)
  | Option.none =>
    if s.c.debug then
      match idbGo f s.c.pc s with
      | .fuelOut s' => .inl (.fuelOut s')
      | .raised s' => .inl (.fell s')
      | .done bp' s' => .inr (bp', s')
    else .inr (Option.none, s)

/-- The main execution loop of `Interpreter.run`: debugger hook, fetch
(an `IndexError` breaks the loop), pc increment, dispatch. -/
def runLoop : Nat → Option Int → St → RunRes
  | 0, _, s => .fuelOut s
  | f + 1, bp, s =>
    match dbgHook f bp s with
    | .inl r => r
    | .inr (bp', s) =>
      match pyGet s.c.code s.c.pc with
      | Option.none => .fell s
      | some op =>
        let s := { s with c := { s.c with pc := s.c.pc + 1 } }
        match execInstr f op s with
        | .ok s' => runLoop f bp' s'
        | .exit v s' => .exited v s'
        | .crash s' => .crashed s'
        | .fuelOut s' => .fuelOut s'

/-- The loading pass of `Interpreter.run` (lines 207-237): reserve and
initialize globals, record function entry pcs (and `@main` as the start);
`Option.none` models an exception while decoding or storing. -/
def loadGo : List Instr → Int → Core → Option Core
  | [], pc, c => some { c with pc := pc }
  | op :: rest, pc, c =>
    if op.args.length > 0 then
      match extractOperation op.op with
      | Option.none => Option.none
      | some (opcode, modifier) =>
        if pyStartsWith opcode "global" then
          match op.args with
          | .s name :: restargs =>
            let c := { c with globals := dinsert name c.offset c.globals }
            if modifier.isEmpty then
              match restargs with
              | [init] => do
                let c ← memWrite c.offset (opndToVal init) c
                loadGo rest (pc + 1) { c with offset := c.offset + 1 }
              | _ => loadGo rest (pc + 1) { c with offset := c.offset + 1 }
            else
              let len := kwargsDim modifier
              match restargs with
              | [init] => do
                let c ← copyData c.offset len init c
                loadGo rest (pc + 1) { c with offset := c.offset + len }
              | _ => loadGo rest (pc + 1) { c with offset := c.offset + len }
          | _ => Option.none
        else if pyStartsWith opcode "define" then
          match op.args with
          | .s name :: _ => do
            let c := { c with globals := dinsert name c.offset c.globals }
            let c ← memWrite c.offset (.int pc) c
            let c := { c with offset := c.offset + 1 }
            let c := if name = "@main" then { c with start := pc } else c
            loadGo rest (pc + 1) c
          | _ => Option.none
        else loadGo rest (pc + 1) c
    else loadGo rest (pc + 1) c

/-- The fresh interpreter state of `Interpreter.__init__` (10000 empty
memory cells). -/
def initCore (debug : Bool) (code : List Instr) : Core :=
  { mem := List.replicate 10000 .none, memLen := 10000, globals := [], vars := [],
    offset := 0,
    stack := [], sp := [], params := [], registers := [], returns := [],
    pc := 0, start := 0, lastpc := 0, code := code, debug := debug,
    out := [], err := [] }

/-- `Interpreter(debug)` followed by `run(ircode)`: load pass, debug
banner, then the main loop from the recorded start with no breakpoint. -/
def runProgram (debug : Bool) (code : List Instr) (stdin : List String) (fuel : Nat) : RunRes :=
  match loadGo code 0 (initCore debug code) with
  | Option.none => .crashed ⟨initCore debug code, ⟨stdin, []⟩⟩
  | some c =>
    let c :=
      if c.debug then
        { c with out := c.out ++ [pyPrintLine "Interpreter running in debug mode:",
                                  pyPrintLine helpMsg] }
      else c
    let c := { c with lastpc := c.pc - 1, pc := c.start }
    runLoop fuel Option.none ⟨c, ⟨stdin, []⟩⟩

/-- The state carried by a run result. -/
def RunRes.st : RunRes → St
  | .exited _ s => s
  | .fell s => s
  | .crashed s => s
  | .fuelOut s => s

/-- The standard-output byte stream of a run result. -/
def RunRes.output (r : RunRes) : String := joinSep "" r.st.c.out

/-- The standard-error writes of a run result (the source never writes to
`sys.stderr`; an uncaught-exception traceback is represented by the
`crashed` tag itself). -/
def RunRes.errOutput (r : RunRes) : List String := r.st.c.err

/-- Termination tag of a run result (0 exited, 1 fell off, 2 crashed,
3 out of fuel). -/
def RunRes.tag : RunRes → Nat
  | .exited _ _ => 0
  | .fell _ => 1
  | .crashed _ => 2
  | .fuelOut _ => 3

/-- The value passed to `sys.exit`, if the run exited. -/
def RunRes.exitVal : RunRes → Option Val
  | .exited v _ => some v
  | _ => Option.none

/-- The process exit code of `sys.exit(v)`: `None` exits 0, an int exits
with that value (`bool` is an int), anything else prints to stderr and
exits 1. -/
def pyExitCode : Val → Int
  | .none => 0
  | .int n => n
  | .bool b => if b then 1 else 0
  | _ => 1

/-- The process exit code of a run result, when it exited via `sys.exit`. -/
def RunRes.exitCode (r : RunRes) : Option Int := r.exitVal.map pyExitCode

/-- Combined observable behaviour of a run: how it ended, the value handed
to `sys.exit` (if any), and the bytes written to standard output. -/
def RunRes.obs (r : RunRes) : Nat × Option Val × String := (r.tag, r.exitVal, r.output)

/-- Modelled from the claim (C4, amended): the decoder's specified
behaviour — `fptosi`, `sitofp`, `label`, `jump`, `cbranch` and `call` are
one-segment; every other opcode is first segment `_` second segment, the
remaining segments forming the shape map with numeric segments as `dim i`
entries and `*` segments as `ptr i` entries, indexed by position. -/
def decoderSpecShape (segs : List String) : List (String × String) :=
  segs.enum.filterMap (fun p =>
    if pyIsDigit p.2 then some ("dim" ++ natToStr p.1, p.2)
    else if p.2 = "*" then some ("ptr" ++ natToStr p.1, p.2)
    else Option.none)

/-- Modelled from the claim (C4, amended): the whole specified decoder. -/
def decoderSpec (s : String) : Option (String × List (String × String)) :=
  match (pySplitOn '_' s.data).map String.mk with
  | [] => Option.none
  | op :: rest =>
    if op = "fptosi" ∨ op = "sitofp" ∨ op = "label" ∨ op = "jump" ∨
       op = "cbranch" ∨ op = "call" then
      some (op, [])
    else
      match rest with
      | [] => Option.none
      | ty :: shape => some (op ++ "_" ++ ty, decoderSpecShape shape)

/-- Modelled from the claim (C10, as stated): "the last character of its
last token is silently dropped" — the token list with the final token
shortened by one character. -/
def dropLastTokChar (ts : List String) : List String :=
  match ts.getLast? with
  | Option.none => []
  | some t => ts.dropLast ++ [pyDropLastStr t]

/-- Modelled from the claim (C10, amended): as `dropLastTokChar`, but a
token emptied by the removal disappears (it is no token at all). -/
def dropLastTokCharSpec (ts : List String) : List String :=
  match ts.getLast? with
  | Option.none => []
  | some t => if pyDropLastStr t = "" then ts.dropLast else ts.dropLast ++ [pyDropLastStr t]

/-- The four activation-frame stacks of two states agree (used to state
that non-call/define/return handlers leave the frame machinery alone). -/
def StacksEq (c c' : Core) : Prop :=
  c'.stack = c.stack ∧ c'.sp = c.sp ∧ c'.registers = c.registers ∧ c'.returns = c.returns

/-- The instruction list and debug flag of two states agree (no handler
ever changes them). -/
def PreservesCD (c c' : Core) : Prop := c'.code = c.code ∧ c'.debug = c.debug

/-- Two run results agree on everything but the leftover input state. -/
def ResAgree (r1 r2 : RunRes) : Prop :=
  r1.tag = r2.tag ∧ r1.exitVal = r2.exitVal ∧ r1.st.c = r2.st.c

/-- Example program: a `@main` that only returns void. -/
def demoVoidMain : List Instr :=
  [⟨"define_void", [.s "@main", .args []]⟩, ⟨"return_void", []⟩]

/-- Example program: `@main` passes a pointer to its local `%a` into `@f`,
which stores 9 through it and returns 7; `@main` then returns `%a`. -/
def demoPtrWrite : List Instr := [
  ⟨"define_int", [.s "@main", .args []]⟩,
  ⟨"alloc_int", [.s "%a"]⟩,
  ⟨"literal_int", [.i 0, .s "%p"]⟩,
  ⟨"get_int_*", [.s "%a", .s "%p"]⟩,
  ⟨"param_int", [.s "%p"]⟩,
  ⟨"call", [.s "@f", .s "%t"]⟩,
  ⟨"return_int", [.s "%a"]⟩,
  ⟨"define_int", [.s "@f", .args [("int", "%q")]]⟩,
  ⟨"literal_int", [.i 9, .s "%v"]⟩,
  ⟨"store_int_*", [.s "%v", .s "%q"]⟩,
  ⟨"literal_int", [.i 7, .s "%r"]⟩,
  ⟨"return_int", [.s "%r"]⟩]

/-- Example program: `@main` reads one integer into `%x` and returns
void. -/
def demoRead : List Instr := [
  ⟨"define_void", [.s "@main", .args []]⟩,
  ⟨"alloc_int", [.s "%x"]⟩,
  ⟨"read_int", [.s "%x"]⟩,
  ⟨"return_void", []⟩]

/-- Example program: `@main` executes an instruction with the unknown
opcode `foo_bar` and then returns void. -/
def demoUnknown : List Instr := [
  ⟨"define_void", [.s "@main", .args []]⟩,
  ⟨"foo_bar", [.s "%1"]⟩,
  ⟨"return_void", []⟩]

/-- Example program: a `@main` containing one label. -/
def demoLabel : List Instr := [
  ⟨"define_void", [.s "@main", .args []]⟩,
  ⟨"x:", []⟩,
  ⟨"return_void", []⟩]

/-- Example program: pure arithmetic with printing and no `read`. -/
def demoPure : List Instr := [
  ⟨"define_int", [.s "@main", .args []]⟩,
  ⟨"literal_int", [.i 3, .s "%1"]⟩,
  ⟨"literal_int", [.i 4, .s "%2"]⟩,
  ⟨"add_int", [.s "%1", .s "%2", .s "%3"]⟩,
  ⟨"print_int", [.s "%3"]⟩,
  ⟨"print_void", []⟩,
  ⟨"return_int", [.s "%3"]⟩]

/-- Example interpreter state: an empty return stack (as in `@main`) with
`%r` naming cell 1, which holds 5. -/
def demoCore : Core :=
  { (initCore false []) with
      vars := [("%r", 1), ("%0", 2)],
      mem := [Val.int 0, Val.int 5, Val.none],
      memLen := 3 }

/-- No later entry of the label scan rebinds `key`: every instruction after
position `p` that the scan can still reach (no `define` strictly between)
is not a label-like single instruction with the same key. -/
def NoShadow (code : List Instr) (p : Nat) (key : String) : Prop :=
  ∀ (j : Nat) (opj : Instr), p < j → code.get? j = some opj →
    (∀ (k : Nat) (opk : Instr), p < k → k ≤ j → code.get? k = some opk →
       pyStartsWith opk.op "define" = false) →
    ¬(opj.args = [] ∧ opj.op ≠ "return_void" ∧ "%" ++ pyDropLastStr opj.op = key)

/-- The machine state of the `demoRead` run (empty stdin) after its first
two iterations (`define_void`, `alloc_int`), with the pc at the `read_int`
instruction — snapshotted by running out of fuel there. -/
def demoReadState2 : St :=
  match runProgram false demoRead [] 2 with
  | .fuelOut s => s
  | _ => ⟨initCore false [], ⟨[], []⟩⟩

/-- Character-list version of `dropLastTokCharSpec` (amended C10): remove
the final character of the final token, dropping the token when nothing of
it remains. -/
def dropLastTokCharSpecL (ts : List (List Char)) : List (List Char) :=
  match ts.getLast? with
  | Option.none => []
  | some t => if t.dropLast = [] then ts.dropLast else ts.dropLast ++ [t.dropLast]

/-- A handler step that keeps the whole activation-frame machinery and the
immutable program/debug configuration intact. -/
def FrameCD (c c' : Core) : Prop := PreservesCD c c' ∧ StacksEq c c'


def demoPtrState (fuel : Nat) : St :=
  match runProgram false demoPtrWrite [] fuel with
  | .fuelOut s => s
  | _ => ⟨initCore false [], ⟨[], []⟩⟩

def demoCallRes : Core :=
  match runCall [Opnd.s "%r", Opnd.s "%t"] demoCore with
  | CRes.ok c => c
  | _ => demoCore

def demoPushRes : Core :=
  match pushFrame [] false demoCore with
  | some c => c
  | Option.none => demoCore

def demoPopCore : Core :=
  { demoCore with stack := [[("%s", 0)]], registers := ["%s"], sp := [7], returns := [3] }

def demoPopRes : Core :=
  match popFrame Val.none demoPopCore with
  | CRes.ok c => c
  | _ => demoCore

def demoJumpSt : St :=
  match execInstr 0 ⟨"jump", [Opnd.s "%r"]⟩ ⟨demoCore, ⟨[], []⟩⟩ with
  | ERes.ok s => s
  | _ => ⟨demoCore, ⟨[], []⟩⟩

/-! ## Theorems -/

/-- The shape-modifier loop agrees with the position-indexed
specification of the shape map. -/
theorem modifierBuild_eq_enumFrom (l : List String) :
    ∀ i, modifierBuild l i =
      (List.enumFrom i l).filterMap (fun p =>
        if pyIsDigit p.2 then some ("dim" ++ natToStr p.1, p.2)
        else if p.2 = "*" then some ("ptr" ++ natToStr p.1, p.2)
        else Option.none) := by
  induction l with
  | nil => intro i; rfl
  | cons v vs ih =>
    intro i
    simp only [modifierBuild, List.enumFrom, List.filterMap]
    by_cases hd : pyIsDigit v
    · simp [hd, ih]
    · by_cases hs : v = "*"
      · subst hs
        simp [hd, ih, show pyIsDigit "*" = false from by decide]
      · simp [hd, hs, ih]

/-- C4 (counterexample): the decoder does NOT treat `define` as a
one-segment special operation — `define_int` decodes to the canonical
operation `define_int`, not `define` (`define` is absent from the special
set at `uc_interpreter.py` line 111). -/
theorem claim_C4_counterexample :
    extractOperation "define_int" = some ("define_int", []) ∧
    extractOperation "define_int" ≠ some ("define", []) := by
  exact ⟨by decide, by decide⟩

/-- C4 (amended): the decoder treats exactly `fptosi`, `sitofp`, `label`,
`jump`, `cbranch` and `call` — without `define` — as one-segment special
operations; every other opcode's canonical operation is the first segment
joined to the second, with the remaining numeric segments becoming `dim i`
entries and `*` segments becoming `ptr i` entries of the shape map, indexed
by position. -/
theorem claim_C4_decoder : ∀ s : String, extractOperation s = decoderSpec s := by
  intro s
  unfold extractOperation decoderSpec
  cases h : (pySplitOn '_' s.data).map String.mk with
  | nil => rfl
  | cons a0 rest =>
    have hiff : isSpecialOp a0 = true ↔
        (a0 = "fptosi" ∨ a0 = "sitofp" ∨ a0 = "label" ∨ a0 = "jump" ∨
         a0 = "cbranch" ∨ a0 = "call") := by
      simp [isSpecialOp, or_assoc]
    by_cases hs : isSpecialOp a0 = true
    · dsimp only
      rw [if_pos hs, if_pos (hiff.mp hs)]
    · dsimp only
      rw [if_neg hs, if_neg (fun hor => hs (hiff.mpr hor))]
      cases rest with
      | nil => rfl
      | cons a1 rest2 =>
        simp [decoderSpecShape, List.enum, modifierBuild_eq_enumFrom]

/-- `pyLen` agrees with `List.length`. -/
theorem pyLen_eq {α : Type} (l : List α) : pyLen l = l.length := by
  induction l with
  | nil => rfl
  | cons a l ih => simp [pyLen, ih]

/-- `listNth` agrees with `List.get?`. -/
theorem listNth_eq_get? {α : Type} (l : List α) : ∀ n, listNth l n = l.get? n := by
  induction l with
  | nil => intro n; cases n <;> rfl
  | cons a l ih => intro n; cases n with
    | zero => rfl
    | succ m => simp [listNth, ih]

/-- Lookup after inserting the same key. -/
theorem dlookup_dinsert_self (d : Dict) (k : String) (v : Int) :
    dlookup (dinsert k v d) k = some v := by
  induction d with
  | nil => simp [dinsert, dlookup]
  | cons p d ih =>
    by_cases h : p.1 = k
    · simp [dinsert, dlookup, h]
    · simp [dinsert, dlookup, h, ih]

/-- Lookup after inserting a different key. -/
theorem dlookup_dinsert_ne (d : Dict) (k k' : String) (v : Int) (h : k' ≠ k) :
    dlookup (dinsert k' v d) k = dlookup d k := by
  induction d with
  | nil => simp [dinsert, dlookup, h]
  | cons p d ih =>
    by_cases hp : p.1 = k'
    · simp [dinsert, dlookup, hp, h]
    · simp only [dinsert, hp, if_neg hp, dlookup]
      by_cases hk : p.1 = k
      · simp [dlookup, hk]
      · simp [dlookup, hk, ih]

/-- A successful `pyGet` returns a member of the list. -/
theorem pyGet_mem {α : Type} (l : List α) (i : Int) (x : α)
    (h : pyGet l i = some x) : x ∈ l := by
  unfold pyGet pyGetL at h
  split at h
  · rw [listNth_eq_get?] at h
    exact List.get?_mem h
  · split at h
    · rw [listNth_eq_get?] at h
      exact List.get?_mem h
    · exact absurd h (by simp)

/-- C2: the exit-code contract of the engine.  (1) A `return_int` executed
with an empty return stack (a return from `@main`) exits the process with
the value stored in the named return cell — exit code `n` for an integer
`n`.  (2) A `return_void` executed with an empty return stack and an
untouched `%0` (holding the empty marker) exits with code 0.  (3) The
program consisting solely of a `@main` returning void terminates with exit
code 0.  (4) Under the debugger, the `quit` command terminates with exit
code 0. -/
theorem claim_C2_exit_codes :
    (∀ (c : Core) (x : String) (a : Int) (v : Val),
       c.returns = [] → dlookup c.vars x = some a → memRead c a = some v →
       runReturnInt [.s x] c = .exit v c ∧ ∀ n : Int, v = .int n → pyExitCode v = n) ∧
    (∀ (c : Core) (a : Int),
       c.returns = [] → dlookup c.vars "%0" = some a → memRead c a = some Val.none →
       runReturnVoid [] c = .exit (.int 0) c) ∧
    (runProgram false demoVoidMain [] 10).exitCode = some 0 ∧
    (runProgram true demoVoidMain ["q\n"] 10).exitCode = some 0 := by
  refine ⟨?_, ?_, by decide, by decide⟩
  · intro c x a v hret hx hmem
    constructor
    · simp [runReturnInt, popFrame, withOpt, hx, hret, hmem, vAsIntB]
    · intro n hn; subst hn; rfl
  · intro c a hret hx hmem
    simp [runReturnVoid, popFrame, withOpt, hx, hret, hmem]

/-- C2 (witness): the return-step conjuncts instantiated on a concrete
state whose `%r` cell holds 5. -/
theorem claim_C2_exit_codes_witness :
    runReturnInt [.s "%r"] demoCore = .exit (.int 5) demoCore ∧ pyExitCode (.int 5) = 5 := by
  have h := claim_C2_exit_codes.1 demoCore "%r" 1 (.int 5) rfl rfl rfl
  exact ⟨h.1, h.2 5 rfl⟩

/-- A successful `_store_value` changes only the memory. -/
theorem storeValue_shape (t : String) (v : Val) (c c' : Core)
    (h : storeValue t v c = some c') : ∃ m, c' = { c with mem := m } := by
  have key : ∀ o : Option Int, (o >>= fun a => memWrite a v c) = some c' →
      ∃ m, c' = { c with mem := m } := by
    intro o h
    cases o with
    | none => simp at h
    | some a =>
      replace h : memWrite a v c = some c' := h
      unfold memWrite at h
      simp only [Option.map_eq_some'] at h
      obtain ⟨m, _, hc⟩ := h
      exact ⟨m, hc.symm⟩
  unfold storeValue at h
  split at h
  · exact key _ h
  · exact key _ h

/-- C3 (counterexample): on input token `abc`, the `read_int` program emits
NO output at all (in particular not "Illegal input value."), stores the raw
characters `abc` in `%x`'s cell (address 2), and runs on to its return,
exiting 0.  The claim's required diagnostic is never emitted: in
`_read_int` the parse failure is caught by the inner `except`, which stores
the raw token silently; the "Illegal input value." print sits in the
unreachable outer `except`. -/
theorem claim_C3_counterexample :
    (runProgram false demoRead ["abc\n"] 20).output = "" ∧
    memRead (runProgram false demoRead ["abc\n"] 20).st.c 2 = some (.str "abc") ∧
    (runProgram false demoRead ["abc\n"] 20).exitCode = some 0 := by
  exact ⟨by decide, by decide, by decide⟩

/-- C3 (amended): a `read_int` whose next token does not parse as an
integer stores the raw token characters into the target cell and execution
continues with the following instruction (the handler leaves the pc — and
everything else but the memory cell and the token buffer — untouched), but
no diagnostic is emitted: the output is unchanged. -/
theorem claim_C3_read_raw :
    ∀ (f : Nat) (st : St) (source t : String) (rest : List String) (c' : Core),
      st.inp.buffer = t :: rest → pyIntParse t = Option.none →
      storeValue source (.str t) st.c = some c' →
      runReadInt (f + 1) [.s source] st = .ok ⟨c', { st.inp with buffer := rest }⟩ ∧
      c'.out = st.c.out ∧ c'.pc = st.c.pc ∧ c'.vars = st.c.vars := by
  intro f st source t rest c' hbuf hparse hstore
  obtain ⟨m, hm⟩ := storeValue_shape _ _ _ _ hstore
  constructor
  · simp [runReadInt, readIntHelper, readStore, getInputGo, hbuf, hparse, hstore]
  · subst hm; exact ⟨rfl, rfl, rfl⟩

/-- C3 (witness): the amended read step on a concrete state with pending
token `abc`. -/
theorem claim_C3_read_raw_witness :
    runReadInt 1 [.s "%r"] ⟨demoCore, ⟨[], ["abc"]⟩⟩ =
      .ok ⟨{ demoCore with mem := [Val.int 0, Val.str "abc", Val.none] }, ⟨[], []⟩⟩ := by
  exact (claim_C3_read_raw 0 ⟨demoCore, ⟨[], ["abc"]⟩⟩ "%r" "abc" []
    { demoCore with mem := [Val.int 0, Val.str "abc", Val.none] } rfl (by decide) rfl).1

/-- Dispatch of an instruction whose decoded canonical operation has no
registered handler: the warning is printed to standard output and the
state is otherwise untouched. -/
theorem execInstr_unknown (f : Nat) (op : Instr) (s : St) (canon : String)
    (mods : List (String × String)) (hargs : op.args ≠ [])
    (hextract : extractOperation op.op = some (canon, mods))
    (hhandler : hasHandler canon = false) :
    execInstr f op s =
      .ok { s with c := { s.c with
              out := s.c.out ++ [pyPrintLine ("Warning: No run_" ++ canon ++ "() method")] } } := by
  have hlen : 0 < op.args.length := List.length_pos.mpr hargs
  simp [execInstr, execDecoded, hextract, hhandler, hlen]

/-- C5 (counterexample): executing the unknown opcode `foo_bar` puts the
diagnostic on STANDARD OUTPUT — the error channel receives nothing — and
the program still runs to completion (exit 0).  The claim's "error
channel" is wrong: the source prints the warning with `print`. -/
theorem claim_C5_counterexample :
    (runProgram false demoUnknown [] 20).output = "Warning: No run_foo_bar() method\n" ∧
    (runProgram false demoUnknown [] 20).st.c.err = [] ∧
    (runProgram false demoUnknown [] 20).exitCode = some 0 := by
  exact ⟨by decide, by decide, by decide⟩

/-- C5 (amended): for every executed instruction whose decoded canonical
operation has no registered handler, the engine prints
`Warning: No run_<op>() method` to STANDARD OUTPUT and execution continues
with the next instruction: the dispatch loop iterates on, and no state
other than the pc and the output changes. -/
theorem claim_C5_unknown_opcode :
    (∀ (f : Nat) (op : Instr) (s : St) (canon : String) (mods : List (String × String)),
      op.args ≠ [] → extractOperation op.op = some (canon, mods) → hasHandler canon = false →
      execInstr f op s =
        .ok { s with c := { s.c with
                out := s.c.out ++ [pyPrintLine ("Warning: No run_" ++ canon ++ "() method")] } }) ∧
    (∀ (f : Nat) (op : Instr) (s : St) (canon : String) (mods : List (String × String)),
      s.c.debug = false → pyGet s.c.code s.c.pc = some op →
      op.args ≠ [] → extractOperation op.op = some (canon, mods) → hasHandler canon = false →
      runLoop (f + 1) Option.none s =
        runLoop f Option.none
          { s with c := { s.c with
              pc := s.c.pc + 1,
              out := s.c.out ++ [pyPrintLine ("Warning: No run_" ++ canon ++ "() method")] } }) := by
  constructor
  · exact execInstr_unknown
  · intro f op s canon mods hdebug hfetch hargs hextract hhandler
    rw [runLoop]
    simp only [dbgHook, hdebug, Bool.false_eq_true, if_false]
    rw [hfetch]
    dsimp only
    rw [execInstr_unknown f op _ canon mods hargs hextract hhandler]

/-- C5 (witness): the unknown-opcode step on a concrete state. -/
theorem claim_C5_unknown_opcode_witness :
    execInstr 0 ⟨"foo_bar", [.s "%1"]⟩ (⟨demoCore, ⟨[], []⟩⟩ : St) =
      .ok ⟨{ demoCore with
              out := demoCore.out ++ [pyPrintLine "Warning: No run_foo_bar() method"] },
           ⟨[], []⟩⟩ := by
  exact claim_C5_unknown_opcode.1 0 ⟨"foo_bar", [.s "%1"]⟩ ⟨demoCore, ⟨[], []⟩⟩ "foo_bar" []
    (List.cons_ne_nil _ _) (by decide) (by decide)

/-- `pyGet` at an in-range natural index is `List.get?`. -/
theorem pyGet_nat_lt {α : Type} (l : List α) (i : Nat) (h : i < l.length) :
    pyGet l (i : Int) = l.get? i := by
  unfold pyGet pyGetL
  rw [pyLen_eq]
  have h0 : (0 : Int) ≤ (i : Int) := Int.ofNat_nonneg i
  have h1 : (i : Int) < (l.length : Int) := by exact_mod_cast h
  rw [if_pos ⟨h0, h1⟩, Int.toNat_ofNat, listNth_eq_get?]

/-- `pyGet` at a natural index past the end is `IndexError`. -/
theorem pyGet_nat_ge {α : Type} (l : List α) (i : Nat) (h : l.length ≤ i) :
    pyGet l (i : Int) = Option.none := by
  unfold pyGet pyGetL
  rw [pyLen_eq]
  have h1 : ¬((0 : Int) ≤ (i : Int) ∧ (i : Int) < (l.length : Int)) := by
    intro hc; exact absurd (by exact_mod_cast hc.2) (Nat.not_lt.mpr h)
  have h2 : ¬(-(l.length : Int) ≤ (i : Int) ∧ (i : Int) < 0) := by
    intro hc; omega
  rw [if_neg h1, if_neg h2]

/-- Once the label scan has passed `p` with `key ↦ w` recorded and no
shadowing entry remains reachable, the binding survives to the end of the
scan. -/
theorem allocLabelsGo_preserve (code : List Instr) (p : Nat) (key : String) (w : Int)
    (hno : NoShadow code p key) :
    ∀ (fuel : Nat) (lpc : Nat) (vars : Dict), p < lpc → dlookup vars key = some w →
      (∀ (k : Nat) (opk : Instr), p < k → k < lpc → code.get? k = some opk →
         pyStartsWith opk.op "define" = false) →
      dlookup (allocLabelsGo code fuel (lpc : Int) vars) key = some w := by
  intro fuel
  induction fuel with
  | zero => intro lpc vars _ hv _; exact hv
  | succ f ih =>
    intro lpc vars hlt hv hclean
    rw [allocLabelsGo]
    cases hfetch : code.get? lpc with
    | none =>
      rw [pyGet_nat_ge code lpc (List.get?_eq_none.mp hfetch)]
      exact hv
    | some opl =>
      have hplen : lpc < code.length := by
        rcases List.get?_eq_some.mp hfetch with ⟨hl, _⟩
        exact hl
      rw [pyGet_nat_lt code lpc hplen, hfetch]
      dsimp only
      by_cases hdef : pyStartsWith opl.op "define" = true
      · rw [if_pos hdef]; exact hv
      · rw [if_neg hdef]
        have hcleanext : ∀ (k : Nat) (opk : Instr), p < k → k < lpc + 1 →
            code.get? k = some opk → pyStartsWith opk.op "define" = false := by
          intro k opk hpk hk hgk
          by_cases hkl : k < lpc
          · exact hclean k opk hpk hkl hgk
          · have : k = lpc := by omega
            subst this
            rw [hfetch] at hgk
            cases hgk
            exact Bool.eq_false_iff.mpr hdef
        have hcast : ((lpc : Int) + 1) = ((lpc + 1 : Nat) : Int) := by push_cast; ring
        by_cases hlab : opl.args.isEmpty && opl.op ≠ "return_void"
        · rw [if_pos hlab, hcast]
          have hkey : "%" ++ pyDropLastStr opl.op ≠ key := by
            intro hk
            refine hno lpc opl hlt hfetch ?_ ⟨?_, ?_, hk⟩
            · intro k opk hpk hkle hgk
              exact hcleanext k opk hpk (by omega) hgk
            · exact List.isEmpty_iff.mp ((Bool.and_eq_true _ _).mp hlab).1
            · have := ((Bool.and_eq_true _ _).mp hlab).2
              simpa using this
          refine ih (lpc + 1) _ (by omega) ?_ hcleanext
          rw [dlookup_dinsert_ne _ _ _ _ hkey]
          exact hv
        · rw [if_neg hlab, hcast]
          exact ih (lpc + 1) vars (by omega) hv hcleanext

/-- The label scan, launched at or before a label position `p` with no
`define` in between, ends with the label's key bound to `p + 1`. -/
theorem allocLabelsGo_finds (code : List Instr) (p : Nat) (op : Instr)
    (hp : code.get? p = some op)
    (hargs : op.args = []) (hrv : op.op ≠ "return_void")
    (hno : NoShadow code p ("%" ++ pyDropLastStr op.op)) :
    ∀ (fuel lpc : Nat) (vars : Dict), lpc ≤ p → code.length + 1 ≤ fuel + lpc →
      (∀ (i : Nat) (opi : Instr), lpc ≤ i → i ≤ p → code.get? i = some opi →
         pyStartsWith opi.op "define" = false) →
      dlookup (allocLabelsGo code fuel (lpc : Int) vars) ("%" ++ pyDropLastStr op.op)
        = some ((p : Int) + 1) := by
  have hplen : p < code.length := (List.get?_eq_some.mp hp).1
  intro fuel
  induction fuel with
  | zero => intro lpc vars hle hfuel _; omega
  | succ f ih =>
    intro lpc vars hle hfuel hnodef2
    have hlpclen : lpc < code.length := by omega
    have hfetch : code.get? lpc = some (code.get ⟨lpc, hlpclen⟩) := List.get?_eq_get hlpclen
    rw [allocLabelsGo, pyGet_nat_lt code lpc hlpclen, hfetch]
    dsimp only
    have hndef : pyStartsWith (code.get ⟨lpc, hlpclen⟩).op "define" = false :=
      hnodef2 lpc _ le_rfl hle hfetch
    simp only [hndef, Bool.false_eq_true, if_false]
    have hcast : ((lpc : Int) + 1) = ((lpc + 1 : Nat) : Int) := by push_cast; ring
    by_cases heq : lpc = p
    · subst heq
      have hop : code.get ⟨lpc, hlpclen⟩ = op := by
        rw [hp] at hfetch; exact (Option.some.injEq _ _).mp hfetch.symm
      rw [hop]
      have hcond : (op.args.isEmpty && decide (op.op ≠ "return_void")) = true := by
        rw [hargs]; simp [hrv]
      simp only [hcond, if_true]
      rw [hcast]
      refine allocLabelsGo_preserve code lpc _ _ hno f (lpc + 1) _ (by omega) ?_ ?_
      · exact dlookup_dinsert_self _ _ _
      · intro k opk hk1 hk2 _; omega
    · have hlt : lpc < p := by omega
      have hnodef3 : ∀ (i : Nat) (opi : Instr), lpc + 1 ≤ i → i ≤ p →
          code.get? i = some opi → pyStartsWith opi.op "define" = false := by
        intro i opi h1 h2 hg; exact hnodef2 i opi (by omega) h2 hg
      by_cases hlab : ((code.get ⟨lpc, hlpclen⟩).args.isEmpty &&
          decide ((code.get ⟨lpc, hlpclen⟩).op ≠ "return_void")) = true
      · rw [if_pos (by simpa using hlab), hcast]
        exact ih (lpc + 1) _ (by omega) (by omega) hnodef3
      · rw [if_neg (by simpa using hlab), hcast]
        exact ih (lpc + 1) vars (by omega) (by omega) hnodef3

/-- C7: during the label pre-resolution pass launched at `start` (the pc
after the function's `define`), a label definition at position `p` — a
one-element instruction that is neither `return_void` nor `define`-like —
with no `define` between `start` and `p` and no later rebinding of the same
label name, maps the key `%name` (the label's opcode minus its trailing
colon) to `p + 1`, the position of the instruction immediately following
the label, in the locals table. -/
theorem claim_C7_labels (code : List Instr) (start p : Nat) (op : Instr) (vars : Dict)
    (hp : code.get? p = some op) (hargs : op.args = []) (hrv : op.op ≠ "return_void")
    (hstart : start ≤ p)
    (hnodef : ∀ (i : Nat) (opi : Instr), start ≤ i → i ≤ p → code.get? i = some opi →
       pyStartsWith opi.op "define" = false)
    (hno : NoShadow code p ("%" ++ pyDropLastStr op.op)) :
    dlookup (allocLabels code (start : Int) vars) ("%" ++ pyDropLastStr op.op)
      = some ((p : Int) + 1) := by
  unfold allocLabels
  rw [Int.natAbs_ofNat start]
  exact allocLabelsGo_finds code p op hp hargs hrv hno (code.length + 1 + start) start vars
    hstart (by omega) hnodef

/-- C7 (witness): in `demoLabel`, the label `x:` at position 1 is mapped to
position 2. -/
theorem claim_C7_labels_witness :
    dlookup (allocLabels demoLabel (1 : Int) []) "%x" = some 2 := by
  have hnodef : ∀ (i : Nat) (opi : Instr), 1 ≤ i → i ≤ 1 → demoLabel.get? i = some opi →
      pyStartsWith opi.op "define" = false := by
    intro i opi h1 h2 hg
    have hi : i = 1 := by omega
    subst hi
    cases hg
    decide
  have hno : NoShadow demoLabel 1 ("%" ++ pyDropLastStr "x:") := by
    intro j opj hj hg hclean
    have hj3 : j = 2 ∨ 3 ≤ j := by omega
    cases hj3 with
    | inl h2 =>
      subst h2
      cases hg
      intro hcon
      exact hcon.2.1 rfl
    | inr h3 =>
      rw [List.get?_eq_none.mpr (by simpa [demoLabel] using h3)] at hg
      exact Option.noConfusion hg
  exact claim_C7_labels demoLabel 1 1 ⟨"x:", []⟩ [] rfl rfl (by decide) le_rfl hnodef hno

/-- A binary handler whose left operand is not in the locals table crashes
(even if the name is defined in globals): the operand lookup is
`self.vars[left]`. -/
theorem runBinop_global_crash (vop : Val → Val → Option Val) (g r t : String) (c : Core)
    (hvars : dlookup c.vars g = Option.none) (hgt : g ≠ t) :
    runBinop vop [.s g, .s r, .s t] c = .crash (allocReg t c) := by
  have halloc : dlookup (allocReg t c).vars g = Option.none := by
    unfold allocReg
    split
    · exact hvars
    · rw [dlookup_dinsert_ne _ _ _ _ (Ne.symm hgt)]
      exact hvars
  simp [runBinop, withOpt, halloc]

/-- Dispatching a binary-family instruction whose left operand is missing
from locals crashes, whatever the globals say. -/
theorem execInstr_binop_global_crash (f : Nat) (name : String)
    {vop : Val → Val → Option Val} (g r t : String) (s : St)
    (hread : scalarRead name = Option.none)
    (hdisp : scalarCore name = some (runBinop vop))
    (hextract : extractOperation name = some (name, []))
    (hvars : dlookup s.c.vars g = Option.none) (hgt : g ≠ t) :
    execInstr f ⟨name, [.s g, .s r, .s t]⟩ s = .crash ⟨allocReg t s.c, s.inp⟩ := by
  have hh : hasHandler name = true := by
    unfold hasHandler; rw [hdisp]; simp
  simp [execInstr, execDecoded, hh, hextract, hread, hdisp,
        runBinop_global_crash vop g r t s.c hvars hgt, CRes.lift]

set_option maxHeartbeats 2000000 in
/-- C9: the binary arithmetic, relational and logical handlers, and the
`cbranch` test, resolve their source operands exclusively through the
current locals table: an operand that is missing there faults with a
name-lookup miss (an uncaught `KeyError` crash) even when the name — e.g.
a `@global` — is defined in the globals table.  By contrast, the
address-resolution helper `_get_address`/`_get_value` used by the
load/store/print/read-style handlers sends `@` names to the globals
table. -/
theorem claim_C9_binop_locals_only :
    (∀ name : String, name ∈ ["add_int", "add_float", "sub_int", "sub_float",
        "mul_int", "mul_float", "div_int", "div_float", "mod_int",
        "lt_int", "lt_float", "lt_char", "le_int", "le_float", "le_char",
        "gt_int", "gt_float", "gt_char", "ge_int", "ge_float", "ge_char",
        "eq_int", "eq_float", "eq_char", "eq_bool",
        "ne_int", "ne_float", "ne_char", "ne_bool", "and_bool", "or_bool"] →
      ∀ (f : Nat) (s : St) (g r t : String),
        dlookup s.c.vars g = Option.none → g ≠ t → (dlookup s.c.globals g).isSome →
        execInstr f ⟨name, [.s g, .s r, .s t]⟩ s = .crash ⟨allocReg t s.c, s.inp⟩) ∧
    (∀ (f : Nat) (s : St) (g lt lf : String),
       dlookup s.c.vars g = Option.none → (dlookup s.c.globals g).isSome →
       execInstr f ⟨"cbranch", [.s g, .s lt, .s lf]⟩ s = .crash s) ∧
    (∀ (c : Core) (g : String), pyStartsWith g "@" = true →
       getAddress g c = dlookup c.globals g) ∧
    (∀ (c : Core) (g : String), pyStartsWith g "@" = false →
       getAddress g c = dlookup c.vars g) := by
  refine ⟨?_, ?_, ?_, ?_⟩
  · intro name hname
    fin_cases hname <;>
    · intro f s g r t h1 h2 _
      exact execInstr_binop_global_crash f _ g r t s rfl rfl rfl h1 h2
  · intro f s g lt lf h1 _
    simp [execInstr, execDecoded, hasHandler, runCbranch, withOpt, h1, CRes.lift,
          show extractOperation "cbranch" = some ("cbranch", []) from rfl,
          scalarRead, scalarCore]
  · intro c g h; simp [getAddress, h]
  · intro c g h; simp [getAddress, h]

set_option maxHeartbeats 1000000 in
/-- C9 (witness): `add_int` on `@g` — defined in globals, absent from
locals — crashes on a concrete state. -/
theorem claim_C9_binop_locals_only_witness :
    execInstr 0 ⟨"add_int", [.s "@g", .s "%r", .s "%t"]⟩
        (⟨{ demoCore with globals := [("@g", 0)] }, ⟨[], []⟩⟩ : St) =
      .crash ⟨allocReg "%t" { demoCore with globals := [("@g", 0)] }, ⟨[], []⟩⟩ := by
  exact claim_C9_binop_locals_only.1 "add_int" (by decide) 0
    ⟨{ demoCore with globals := [("@g", 0)] }, ⟨[], []⟩⟩ "@g" "%r" "%t" rfl (by decide) rfl

/-- At end of input with an empty token buffer, the `_get_input` loop never
succeeds: it prints "Unexpected end of input file." once per iteration,
forever (one message per unit of fuel, never returning a refilled
buffer). -/
theorem getInputGo_empty : ∀ fuel : Nat,
    getInputGo fuel ⟨[], []⟩ =
      (Option.none, List.replicate fuel (pyPrintLine "Unexpected end of input file.")) := by
  intro fuel
  induction fuel with
  | zero => rfl
  | succ f ih =>
    rw [getInputGo]
    simp only [show refillBuffer "" = [] from rfl, ih]
    rfl

/-- One non-debug iteration of the main loop: fetch, advance the pc,
dispatch to a continuing handler, loop. -/
theorem runLoop_step (f : Nat) (s s' : St) (op : Instr) (hdebug : s.c.debug = false)
    (hfetch : pyGet s.c.code s.c.pc = some op)
    (hexec : execInstr f op { s with c := { s.c with pc := s.c.pc + 1 } } = .ok s') :
    runLoop (f + 1) Option.none s = runLoop f Option.none s' := by
  have hd : dbgHook f Option.none s = .inr (Option.none, s) := by
    simp [dbgHook, hdebug]
  rw [runLoop, hd]
  dsimp only
  rw [hfetch]
  dsimp only
  rw [hexec]

/-- One non-debug iteration whose handler runs out of fuel ends the run
with the `fuelOut` snapshot. -/
theorem runLoop_step_fuelOut (f : Nat) (s s' : St) (op : Instr) (hdebug : s.c.debug = false)
    (hfetch : pyGet s.c.code s.c.pc = some op)
    (hexec : execInstr f op { s with c := { s.c with pc := s.c.pc + 1 } } = .fuelOut s') :
    runLoop (f + 1) Option.none s = .fuelOut s' := by
  have hd : dbgHook f Option.none s = .inr (Option.none, s) := by
    simp [dbgHook, hdebug]
  rw [runLoop, hd]
  dsimp only
  rw [hfetch]
  dsimp only
  rw [hexec]

/-- A `read_int` executed at end of input (empty buffer, exhausted stdin)
is still inside the `_get_input` loop whatever the fuel, having printed one
"Unexpected end of input file." diagnostic per iteration. -/
theorem execInstr_read_eof (f : Nat) (s : St) (x : String) (hinp : s.inp = ⟨[], []⟩) :
    execInstr f ⟨"read_int", [.s x]⟩ s =
      .fuelOut { s with c := { s.c with
          out := s.c.out ++ List.replicate f (pyPrintLine "Unexpected end of input file.") } } := by
  simp [execInstr, execDecoded, hasHandler, scalarRead, scalarCore, runReadInt,
        readIntHelper, readStore, hinp, getInputGo_empty,
        show extractOperation "read_int" = some ("read_int", []) from rfl]

/-- C6: wrong about the input parser.  (1) With the input channel
exhausted, the `_get_input` loop never terminates: each iteration prints
"Unexpected end of input file." and tries again, so the engine emits the
message unboundedly instead of emitting it once and terminating.
(2) Consequently a program that executes `read_int` at end of input never
terminates — `runProgram` reports a still-running loop (tag 3) for EVERY
fuel bound.  (Name-lookup misses and out-of-range accesses by contrast are
genuinely fatal: they are uncaught exceptions, cf. the crash results of
`claim_C9_binop_locals_only`-style lookups.) -/
theorem claim_C6_eof_diverges :
    (∀ fuel : Nat, getInputGo fuel ⟨[], []⟩ =
       (Option.none, List.replicate fuel (pyPrintLine "Unexpected end of input file."))) ∧
    (∀ fuel : Nat, (runProgram false demoRead [] fuel).tag = 3) := by
  constructor
  · exact getInputGo_empty
  · have hrun : ∀ f : Nat, runProgram false demoRead [] (f + 2) =
        runLoop f Option.none demoReadState2 := fun _ => rfl
    have hdbg : demoReadState2.c.debug = false := rfl
    have hfetch : pyGet demoReadState2.c.code demoReadState2.c.pc =
        some ⟨"read_int", [.s "%x"]⟩ := rfl
    have hinp : ({ demoReadState2 with
        c := { demoReadState2.c with pc := demoReadState2.c.pc + 1 } } : St).inp
        = ⟨[], []⟩ := rfl
    intro fuel
    match fuel with
    | 0 => decide
    | 1 => decide
    | (n + 2) =>
      rw [hrun n]
      match n with
      | 0 => rfl
      | (m + 1) =>
        rw [runLoop_step_fuelOut m demoReadState2 _ _ hdbg hfetch
          (execInstr_read_eof m _ "%x" hinp)]
        rfl

/-- Appending one whitespace character does not change the token split. -/
theorem splitWSAux_snoc_ws (c : Char) (hc : pyIsWS c = true) :
    ∀ (l : List Char) (acc : List Char),
      pySplitWSAux (l ++ [c]) acc = pySplitWSAux l acc := by
  intro l
  induction l with
  | nil =>
    intro acc
    by_cases ha : acc = []
    · simp [pySplitWSAux, hc, ha]
    · simp [pySplitWSAux, hc, ha]
  | cons d l ih =>
    intro acc
    by_cases hd : pyIsWS d
    · by_cases ha : acc = []
      · simp [pySplitWSAux, hd, ha, ih]
      · simp [pySplitWSAux, hd, ha, ih]
    · simp [pySplitWSAux, hd, ih]

/-- Appending a run of whitespace does not change the token split. -/
theorem splitWS_append_ws (m w : List Char) (hw : ∀ c ∈ w, pyIsWS c = true) :
    pySplitWS (m ++ w) = pySplitWS m := by
  induction w using List.reverseRecOn with
  | nil => simp
  | append_singleton w c ih =>
    rw [← List.append_assoc]
    unfold pySplitWS
    rw [splitWSAux_snoc_ws c (hw c (by simp)) (m ++ w) []]
    exact ih (fun c hc => hw c (by simp [hc]))

/-- Dropping leading whitespace does not change the token split. -/
theorem splitWSAux_dropWhile (l : List Char) :
    pySplitWSAux (l.dropWhile pyIsWS) [] = pySplitWSAux l [] := by
  induction l with
  | nil => rfl
  | cons d l ih =>
    by_cases hd : pyIsWS d
    · simp [List.dropWhile, hd, ih, pySplitWSAux]
    · simp [List.dropWhile, hd]

/-- `str.strip()` before `str.split()` is a no-op: the whitespace-run split
already ignores outer whitespace. -/
theorem splitWS_strip (l : List Char) : pySplitWS (pyStrip l) = pySplitWS l := by
  have h1 : pySplitWS l = pySplitWS (l.dropWhile pyIsWS) :=
    (splitWSAux_dropWhile l).symm
  set m := l.dropWhile pyIsWS with hm
  have hdecomp : m = ((m.reverse.dropWhile pyIsWS).reverse) ++
      ((m.reverse.takeWhile pyIsWS).reverse) := by
    conv_lhs => rw [← List.reverse_reverse m,
      ← List.takeWhile_append_dropWhile (p := pyIsWS) (l := m.reverse)]
    rw [List.reverse_append]
  have hws : ∀ c ∈ (m.reverse.takeWhile pyIsWS).reverse, pyIsWS c = true := by
    intro c hc
    rw [List.mem_reverse] at hc
    exact List.mem_takeWhile_imp hc
  unfold pyStrip
  rw [h1, ← hm]
  conv_rhs => rw [hdecomp]
  rw [splitWS_append_ws _ _ hws]

/-- The split of a list ending in a non-whitespace character is never
empty. -/
theorem splitWSAux_snoc_nonws_ne_nil (c : Char) (hc : pyIsWS c = false) :
    ∀ (l : List Char) (acc : List Char), pySplitWSAux (l ++ [c]) acc ≠ [] := by
  intro l
  induction l with
  | nil =>
    intro acc
    simp [pySplitWSAux, hc]
  | cons d l ih =>
    intro acc
    by_cases hd : pyIsWS d
    · by_cases ha : acc = []
      · simpa [pySplitWSAux, hd, ha] using ih []
      · simp [pySplitWSAux, hd, ha]
    · simpa [pySplitWSAux, hd] using ih (d :: acc)

/-- `dropLastTokCharSpecL` skips over a completed leading token. -/
theorem dropLastTokCharSpecL_cons (x : List Char) (rest : List (List Char))
    (h : rest ≠ []) :
    dropLastTokCharSpecL (x :: rest) = x :: dropLastTokCharSpecL rest := by
  obtain ⟨y, t, rfl⟩ : ∃ y t, rest = y :: t := by
    cases rest with
    | nil => exact absurd rfl h
    | cons y t => exact ⟨y, t, rfl⟩
  unfold dropLastTokCharSpecL
  rw [List.getLast?_cons_cons]
  cases hl : (y :: t).getLast? with
  | none => simp at hl
  | some tk =>
    by_cases he : tk.dropLast = []
    · simp [he, List.dropLast_cons₂]
    · simp [he, List.dropLast_cons₂]

/-- Removing the last character of the last token (dropping an emptied
token) undoes the extension of the split by one non-whitespace
character. -/
theorem dropSpec_splitWSAux_snoc (c : Char) (hc : pyIsWS c = false) :
    ∀ (l : List Char) (acc : List Char),
      dropLastTokCharSpecL (pySplitWSAux (l ++ [c]) acc) = pySplitWSAux l acc := by
  intro l
  induction l with
  | nil =>
    intro acc
    show dropLastTokCharSpecL (pySplitWSAux [c] acc) = pySplitWSAux [] acc
    rw [show ([c] : List Char) = [] ++ [c] from rfl]
    simp only [pySplitWSAux, hc, Bool.false_eq_true, if_false, List.nil_append]
    have hne : (c :: acc) ≠ [] := by simp
    simp only [pySplitWSAux, hne, if_neg hne]
    unfold dropLastTokCharSpecL
    by_cases ha : acc = []
    · subst ha; simp
    · simp [List.dropLast_concat, ha]
  | cons d l ih =>
    intro acc
    by_cases hd : pyIsWS d
    · by_cases ha : acc = []
      · simp only [List.cons_append, pySplitWSAux, hd, if_true, ha, if_pos rfl]
        exact ih []
      · rw [List.cons_append]
        rw [show pySplitWSAux (d :: (l ++ [c])) acc = acc.reverse :: pySplitWSAux (l ++ [c]) []
              from by simp [pySplitWSAux, hd, ha]]
        rw [show pySplitWSAux (d :: l) acc = acc.reverse :: pySplitWSAux l []
              from by simp [pySplitWSAux, hd, ha]]
        rw [dropLastTokCharSpecL_cons _ _ (splitWSAux_snoc_nonws_ne_nil c hc l [])]
        rw [ih []]
    · simp only [List.cons_append, pySplitWSAux, hd, Bool.false_eq_true, if_false]
      exact ih (d :: acc)

/-- Bridge between the string-level and character-list-level claim
formalizations. -/
theorem dropLastTokCharSpec_map (ts : List (List Char)) :
    dropLastTokCharSpec (ts.map String.mk) = (dropLastTokCharSpecL ts).map String.mk := by
  unfold dropLastTokCharSpec dropLastTokCharSpecL
  cases hl : ts.getLast? with
  | none =>
    rw [List.getLast?_eq_none_iff] at hl
    subst hl
    rfl
  | some t =>
    have hmap : (ts.map String.mk).getLast? = some (String.mk t) := by
      rw [List.getLast?_map, hl]
      rfl
    rw [hmap]
    dsimp only
    by_cases he : t.dropLast = []
    · simp [pyDropLastStr, he, List.map_dropLast,
            show (String.mk [] : String) = "" from rfl]
    · have hne : String.mk t.dropLast ≠ "" := by
        intro hcon
        apply he
        have : (String.mk t.dropLast).data = ("" : String).data := by rw [hcon]
        simpa using this
      simp [pyDropLastStr, he, hne, List.map_dropLast]

/-- Refilling from a line whose last character is whitespace: only that
character is dropped and the tokens are exactly those of the rest of the
line. -/
theorem refill_snoc_ws (l : List Char) (c : Char) (_hc : pyIsWS c = true) :
    refillBuffer (String.mk (l ++ [c])) = (pySplitWS l).map String.mk := by
  unfold refillBuffer
  rw [show (String.mk (l ++ [c])).data = l ++ [c] from rfl, List.dropLast_concat,
      splitWS_strip]

/-- Refilling from a line whose last character is not whitespace: the last
token loses its final character (disappearing entirely when it was a
one-character token). -/
theorem refill_snoc_nonws (l : List Char) (c : Char) (hc : pyIsWS c = false) :
    refillBuffer (String.mk (l ++ [c])) =
      dropLastTokCharSpec ((pySplitWS (l ++ [c])).map String.mk) := by
  unfold refillBuffer
  rw [show (String.mk (l ++ [c])).data = l ++ [c] from rfl, List.dropLast_concat,
      splitWS_strip, dropLastTokCharSpec_map,
      show dropLastTokCharSpecL (pySplitWS (l ++ [c])) = pySplitWS l from
        dropSpec_splitWSAux_snoc c hc l []]

/-- C10 (counterexample): for the final line `"1 "` — not terminated by a
newline but ending in whitespace — the engine's refill yields the intact
token `1`, whereas the claim says the last character of the last token is
dropped (which would leave the empty token): the character removed is the
trailing space, not a token character. -/
theorem claim_C10_counterexample :
    refillBuffer "1 " = ["1"] ∧
    dropLastTokChar ((pySplitWS "1 ".data).map String.mk) = [""] ∧
    refillBuffer "1 " ≠ dropLastTokChar ((pySplitWS "1 ".data).map String.mk) := by
  exact ⟨by decide, by decide, by decide⟩

/-- C10 (amended): the engine unconditionally removes the last character
of the line read before whitespace-splitting it.  (1) For every line
terminated by a newline this removes only the newline: the tokens are
those of the line's content.  (2) More generally, when the final input
line ends in any whitespace character, only that character is removed and
no token is affected.  (3) When a final input line not terminated by a
newline ends in a non-whitespace character, the last character of its last
token is silently dropped before parsing (the token disappearing entirely
if that was its only character). -/
theorem claim_C10_last_char_dropped :
    (∀ l : List Char, refillBuffer (String.mk (l ++ ['\n'])) =
       (pySplitWS l).map String.mk) ∧
    (∀ (l : List Char) (c : Char), pyIsWS c = true →
       refillBuffer (String.mk (l ++ [c])) = (pySplitWS l).map String.mk) ∧
    (∀ (l : List Char) (c : Char), pyIsWS c = false →
       refillBuffer (String.mk (l ++ [c])) =
         dropLastTokCharSpec ((pySplitWS (l ++ [c])).map String.mk)) := by
  exact ⟨fun l => refill_snoc_ws l '\n' (by decide), refill_snoc_ws, refill_snoc_nonws⟩

/-- C10 (witness): refilling from the unterminated final line `42` yields
the truncated token `4`, as the amended claim describes. -/
theorem claim_C10_last_char_dropped_witness :
    refillBuffer (String.mk ("4".data ++ ['2'])) =
      dropLastTokCharSpec ((pySplitWS ("4".data ++ ['2'])).map String.mk) := by
  exact claim_C10_last_char_dropped.2.2 "4".data '2' (by decide)

/-- A `withOpt` chain that continues must have had its option present. -/
theorem withOpt_ok {α : Type} {o : Option α} {c : Core} {k : α → CRes} {c' : Core}
    (h : withOpt o c k = .ok c') : ∃ a, o = some a ∧ k a = .ok c' := by
  cases o with
  | none => exact absurd h (by simp [withOpt])
  | some a => exact ⟨a, rfl, h⟩


/-- Eliminate one `Option` bind that produced a value. -/
theorem bind_some_elim {α β : Type} {o : Option α} {f : α → Option β} {b : β}
    (h : (o >>= f) = some b) : ∃ a, o = some a ∧ f a = some b := by
  cases o with
  | none => exact absurd h (by simp)
  | some a => exact ⟨a, rfl, h⟩

/-- A successful memory-cell write changes only the memory list. -/
theorem memWrite_shape {i : Int} {v : Val} {c c' : Core}
    (h : memWrite i v c = some c') : ∃ m, c' = { c with mem := m } := by
  unfold memWrite at h
  rw [Option.map_eq_some'] at h
  obtain ⟨m, -, rfl⟩ := h
  exact ⟨m, rfl⟩

@[simp] theorem allocReg_mem (t : String) (c : Core) : (allocReg t c).mem = c.mem := by
  unfold allocReg; split <;> rfl

@[simp] theorem allocReg_memLen (t : String) (c : Core) : (allocReg t c).memLen = c.memLen := by
  unfold allocReg; split <;> rfl

@[simp] theorem allocReg_globals (t : String) (c : Core) : (allocReg t c).globals = c.globals := by
  unfold allocReg; split <;> rfl

@[simp] theorem allocReg_stack (t : String) (c : Core) : (allocReg t c).stack = c.stack := by
  unfold allocReg; split <;> rfl

@[simp] theorem allocReg_sp (t : String) (c : Core) : (allocReg t c).sp = c.sp := by
  unfold allocReg; split <;> rfl

@[simp] theorem allocReg_params (t : String) (c : Core) : (allocReg t c).params = c.params := by
  unfold allocReg; split <;> rfl

@[simp] theorem allocReg_registers (t : String) (c : Core) :
    (allocReg t c).registers = c.registers := by
  unfold allocReg; split <;> rfl

@[simp] theorem allocReg_returns (t : String) (c : Core) : (allocReg t c).returns = c.returns := by
  unfold allocReg; split <;> rfl

@[simp] theorem allocReg_pc (t : String) (c : Core) : (allocReg t c).pc = c.pc := by
  unfold allocReg; split <;> rfl

@[simp] theorem allocReg_code (t : String) (c : Core) : (allocReg t c).code = c.code := by
  unfold allocReg; split <;> rfl

@[simp] theorem allocReg_debug (t : String) (c : Core) : (allocReg t c).debug = c.debug := by
  unfold allocReg; split <;> rfl

@[simp] theorem allocReg_out (t : String) (c : Core) : (allocReg t c).out = c.out := by
  unfold allocReg; split <;> rfl

@[simp] theorem memSplice_vars (a b : Int) (v : List Val) (c : Core) :
    (memSplice a b v c).vars = c.vars := rfl

@[simp] theorem memSplice_offset (a b : Int) (v : List Val) (c : Core) :
    (memSplice a b v c).offset = c.offset := rfl

@[simp] theorem memSplice_stack (a b : Int) (v : List Val) (c : Core) :
    (memSplice a b v c).stack = c.stack := rfl

@[simp] theorem memSplice_sp (a b : Int) (v : List Val) (c : Core) :
    (memSplice a b v c).sp = c.sp := rfl

@[simp] theorem memSplice_registers (a b : Int) (v : List Val) (c : Core) :
    (memSplice a b v c).registers = c.registers := rfl

@[simp] theorem memSplice_returns (a b : Int) (v : List Val) (c : Core) :
    (memSplice a b v c).returns = c.returns := rfl

@[simp] theorem memSplice_pc (a b : Int) (v : List Val) (c : Core) :
    (memSplice a b v c).pc = c.pc := rfl

@[simp] theorem memSplice_code (a b : Int) (v : List Val) (c : Core) :
    (memSplice a b v c).code = c.code := rfl

@[simp] theorem memSplice_debug (a b : Int) (v : List Val) (c : Core) :
    (memSplice a b v c).debug = c.debug := rfl

@[simp] theorem memSplice_out (a b : Int) (v : List Val) (c : Core) :
    (memSplice a b v c).out = c.out := rfl

/-- `_alloc_reg` changes only the locals table and the offset. -/
theorem allocReg_shape (t : String) (x : Core) :
    ∃ d o, allocReg t x = { x with vars := d, offset := o } := by
  unfold allocReg
  split
  · exact ⟨x.vars, x.offset, rfl⟩
  · exact ⟨_, _, rfl⟩

/-- A successful `_store_deref` changes only the memory. -/
theorem storeDeref_shape (t : String) (v : Val) (c c' : Core)
    (h : storeDeref t v c = some c') : ∃ m, c' = { c with mem := m } := by
  unfold storeDeref at h
  dsimp only at h
  split at h <;>
    (obtain ⟨a, -, h⟩ := bind_some_elim h
     obtain ⟨p, -, h⟩ := bind_some_elim h
     obtain ⟨i, -, hw⟩ := bind_some_elim h
     exact memWrite_shape hw)

/-- A successful `_store_multiple_values` changes only the memory (and its
cached length). -/
theorem storeMultipleValues_shape (dim : Nat) (t s : String) (c c' : Core)
    (h : storeMultipleValues dim t s c = some c') :
    ∃ m n, c' = { c with mem := m, memLen := n } := by
  unfold storeMultipleValues at h
  obtain ⟨left, -, h⟩ := bind_some_elim h
  obtain ⟨right, -, h⟩ := bind_some_elim h
  split at h
  · obtain ⟨v, -, h⟩ := bind_some_elim h
    split at h
    · injection h with h
      exact ⟨_, _, h.symm⟩
    · injection h with h
      exact ⟨_, _, h.symm⟩
  · injection h with h
    exact ⟨_, _, h.symm⟩

/-- A successful `_load_multiple_values` changes only the locals table, the
offset and the memory. -/
theorem loadMultipleValues_shape (size : Nat) (vn t : String) (c c' : Core)
    (h : loadMultipleValues size vn t c = some c') :
    ∃ d o m n, c' = { c with vars := d, offset := o, mem := m, memLen := n } := by
  unfold loadMultipleValues at h
  obtain ⟨m, n, hc⟩ := storeMultipleValues_shape _ _ _ _ _ h
  exact ⟨_, _, m, n, hc⟩

/-- The parameter-copy loop changes only the locals table, the offset and
the memory. -/
theorem pushParams_shape : ∀ (vs : List Int) (ls : List String) (c c' : Core),
    pushParams vs ls c = some c' → ∃ d o m, c' = { c with vars := d, offset := o, mem := m } := by
  intro vs
  induction vs with
  | nil =>
    intro ls c c' h
    injection h with h
    exact ⟨c.vars, c.offset, c.mem, h.symm⟩
  | cons v vs ih =>
    intro ls c c' h
    cases ls with
    | nil => exact Option.noConfusion h
    | cons l ls' =>
      rw [pushParams] at h
      obtain ⟨mv, -, h⟩ := bind_some_elim h
      obtain ⟨c₂, hw, h⟩ := bind_some_elim h
      obtain ⟨m₂, rfl⟩ := memWrite_shape hw
      obtain ⟨d, o, m, hc⟩ := ih _ _ _ h
      exact ⟨d, o, m, hc⟩

/-- `_push` saves the caller's exact locals table and offset on the two
stacks; it touches nothing else but locals, offset, memory and the pending
parameters. -/
theorem pushFrame_shape (locs : List String) (nr : Bool) (c c' : Core)
    (h : pushFrame locs nr c = some c') :
    ∃ d o m, c' = { c with vars := d, offset := o, mem := m, params := [], stack := c.vars :: c.stack, sp := c.offset :: c.sp } := by
  unfold pushFrame at h
  dsimp only at h
  split at h
  · obtain ⟨a, -, h⟩ := bind_some_elim h
    obtain ⟨c₂, hw, h⟩ := bind_some_elim h
    obtain ⟨c₃, h3, hfin⟩ := bind_some_elim h
    injection hfin with hfin
    obtain ⟨da, oa, hra⟩ := allocReg_shape "%0" _
    rw [hra] at hw
    obtain ⟨m₂, rfl⟩ := memWrite_shape hw
    obtain ⟨d₃, o₃, m₃, rfl⟩ := pushParams_shape _ _ _ _ h3
    exact ⟨_, _, _, hfin.symm⟩
  · obtain ⟨c₂, h2, h⟩ := bind_some_elim h
    injection h2 with h2
    subst h2
    obtain ⟨c₃, h3, hfin⟩ := bind_some_elim h
    injection hfin with hfin
    obtain ⟨d₃, o₃, m₃, rfl⟩ := pushParams_shape _ _ _ _ h3
    exact ⟨_, _, _, hfin.symm⟩

/-- Every core handler but call/define/return leaves the frame stacks and
the program/debug configuration alone: `run_alloc_int`. -/
theorem runAllocInt_frame {args : List Opnd} {c c' : Core}
    (h : runAllocInt args c = .ok c') : FrameCD c c' := by
  unfold runAllocInt at h
  split at h
  · obtain ⟨a, -, h⟩ := withOpt_ok h
    obtain ⟨c₂, hm, h⟩ := withOpt_ok h
    injection h with h
    subst h
    obtain ⟨m, rfl⟩ := memWrite_shape hm
    simp [FrameCD, PreservesCD, StacksEq]
  · exact CRes.noConfusion h

/-- As `runAllocInt_frame`, for `run_alloc_T_`. -/
theorem runAllocShaped_frame {mods : List (String × String)} {args : List Opnd} {c c' : Core}
    (h : runAllocShaped mods args c = .ok c') : FrameCD c c' := by
  unfold runAllocShaped at h
  split at h
  · injection h with h
    subst h
    simp [FrameCD, PreservesCD, StacksEq]
  · exact CRes.noConfusion h

/-- As `runAllocInt_frame`, for `run_cbranch`. -/
theorem runCbranch_frame {args : List Opnd} {c c' : Core}
    (h : runCbranch args c = .ok c') : FrameCD c c' := by
  unfold runCbranch at h
  split at h
  · obtain ⟨a, -, h⟩ := withOpt_ok h
    obtain ⟨v, -, h⟩ := withOpt_ok h
    split at h <;>
      (obtain ⟨p, -, h⟩ := withOpt_ok h; injection h with h; subst h;
       simp [FrameCD, PreservesCD, StacksEq])
  · exact CRes.noConfusion h

/-- As `runAllocInt_frame`, for `run_elem_T`. -/
theorem runElem_frame {args : List Opnd} {c c' : Core}
    (h : runElem args c = .ok c') : FrameCD c c' := by
  unfold runElem at h
  split at h
  · obtain ⟨a, -, h⟩ := withOpt_ok h
    obtain ⟨iv, -, h⟩ := withOpt_ok h
    obtain ⟨av, -, h⟩ := withOpt_ok h
    obtain ⟨c₂, hs, h⟩ := withOpt_ok h
    injection h with h
    subst h
    obtain ⟨m, rfl⟩ := storeValue_shape _ _ _ _ hs
    simp [FrameCD, PreservesCD, StacksEq]
  · exact CRes.noConfusion h

/-- As `runAllocInt_frame`, for the scalar `run_get_int` (a no-op). -/
theorem runGetInt_frame {args : List Opnd} {c c' : Core}
    (h : runGetInt args c = .ok c') : FrameCD c c' := by
  unfold runGetInt at h
  split at h
  · injection h with h
    subst h
    exact ⟨⟨rfl, rfl⟩, rfl, rfl, rfl, rfl⟩
  · exact CRes.noConfusion h

/-- As `runAllocInt_frame`, for `run_get_T_`. -/
theorem runGetShaped_frame {args : List Opnd} {c c' : Core}
    (h : runGetShaped args c = .ok c') : FrameCD c c' := by
  unfold runGetShaped at h
  split at h
  · obtain ⟨a, -, h⟩ := withOpt_ok h
    obtain ⟨c₂, hs, h⟩ := withOpt_ok h
    injection h with h
    subst h
    obtain ⟨m, rfl⟩ := storeValue_shape _ _ _ _ hs
    simp [FrameCD, PreservesCD, StacksEq]
  · exact CRes.noConfusion h

/-- As `runAllocInt_frame`, for `run_jump`. -/
theorem runJump_frame {args : List Opnd} {c c' : Core}
    (h : runJump args c = .ok c') : FrameCD c c' := by
  unfold runJump at h
  split at h
  · obtain ⟨p, -, h⟩ := withOpt_ok h
    injection h with h
    subst h
    exact ⟨⟨rfl, rfl⟩, rfl, rfl, rfl, rfl⟩
  · exact CRes.noConfusion h

/-- As `runAllocInt_frame`, for `run_literal_int` / `run_literal_float`. -/
theorem runLiteralInt_frame {args : List Opnd} {c c' : Core}
    (h : runLiteralInt args c = .ok c') : FrameCD c c' := by
  unfold runLiteralInt at h
  split at h
  · obtain ⟨a, -, h⟩ := withOpt_ok h
    obtain ⟨c₂, hm, h⟩ := withOpt_ok h
    injection h with h
    subst h
    obtain ⟨m, rfl⟩ := memWrite_shape hm
    simp [FrameCD, PreservesCD, StacksEq]
  · exact CRes.noConfusion h

/-- As `runAllocInt_frame`, for `run_literal_char`. -/
theorem runLiteralChar_frame {args : List Opnd} {c c' : Core}
    (h : runLiteralChar args c = .ok c') : FrameCD c c' := by
  unfold runLiteralChar at h
  split at h
  · obtain ⟨a, -, h⟩ := withOpt_ok h
    obtain ⟨c₂, hm, h⟩ := withOpt_ok h
    injection h with h
    subst h
    obtain ⟨m, rfl⟩ := memWrite_shape hm
    simp [FrameCD, PreservesCD, StacksEq]
  · exact CRes.noConfusion h

/-- As `runAllocInt_frame`, for the scalar `run_load_T`. -/
theorem runLoadInt_frame {args : List Opnd} {c c' : Core}
    (h : runLoadInt args c = .ok c') : FrameCD c c' := by
  unfold runLoadInt at h
  split at h
  · obtain ⟨v, -, h⟩ := withOpt_ok h
    obtain ⟨a, -, h⟩ := withOpt_ok h
    obtain ⟨c₂, hm, h⟩ := withOpt_ok h
    injection h with h
    subst h
    obtain ⟨m, rfl⟩ := memWrite_shape hm
    simp [FrameCD, PreservesCD, StacksEq]
  · exact CRes.noConfusion h

/-- As `runAllocInt_frame`, for `run_load_T_`. -/
theorem runLoadShaped_frame {mods : List (String × String)} {args : List Opnd} {c c' : Core}
    (h : runLoadShaped mods args c = .ok c') : FrameCD c c' := by
  unfold runLoadShaped at h
  split at h
  · dsimp only at h
    split at h
    · obtain ⟨c₂, hl, h⟩ := withOpt_ok h
      injection h with h
      subst h
      obtain ⟨d, o, m, n, rfl⟩ := loadMultipleValues_shape _ _ _ _ _ hl
      simp [FrameCD, PreservesCD, StacksEq]
    · split at h
      · obtain ⟨p, -, h⟩ := withOpt_ok h
        obtain ⟨i, -, h⟩ := withOpt_ok h
        obtain ⟨v, -, h⟩ := withOpt_ok h
        obtain ⟨a, -, h⟩ := withOpt_ok h
        obtain ⟨c₂, hm, h⟩ := withOpt_ok h
        injection h with h
        subst h
        obtain ⟨m, rfl⟩ := memWrite_shape hm
        simp [FrameCD, PreservesCD, StacksEq]
      · injection h with h
        subst h
        exact ⟨⟨rfl, rfl⟩, rfl, rfl, rfl, rfl⟩
  · exact CRes.noConfusion h

/-- As `runAllocInt_frame`, for `run_param_T`. -/
theorem runParamInt_frame {args : List Opnd} {c c' : Core}
    (h : runParamInt args c = .ok c') : FrameCD c c' := by
  unfold runParamInt at h
  split at h
  · obtain ⟨a, -, h⟩ := withOpt_ok h
    injection h with h
    subst h
    exact ⟨⟨rfl, rfl⟩, rfl, rfl, rfl, rfl⟩
  · exact CRes.noConfusion h

/-- As `runAllocInt_frame`, for `run_print_string`. -/
theorem runPrintString_frame {args : List Opnd} {c c' : Core}
    (h : runPrintString args c = .ok c') : FrameCD c c' := by
  unfold runPrintString at h
  split at h
  · obtain ⟨v, -, h⟩ := withOpt_ok h
    split at h
    · injection h with h
      subst h
      exact ⟨⟨rfl, rfl⟩, rfl, rfl, rfl, rfl⟩
    · exact CRes.noConfusion h
  · exact CRes.noConfusion h

/-- As `runAllocInt_frame`, for the scalar `run_print_T`. -/
theorem runPrintInt_frame {args : List Opnd} {c c' : Core}
    (h : runPrintInt args c = .ok c') : FrameCD c c' := by
  unfold runPrintInt at h
  split at h
  · obtain ⟨v, -, h⟩ := withOpt_ok h
    injection h with h
    subst h
    exact ⟨⟨rfl, rfl⟩, rfl, rfl, rfl, rfl⟩
  · exact CRes.noConfusion h

/-- As `runAllocInt_frame`, for `run_print_void`. -/
theorem runPrintVoid_frame {args : List Opnd} {c c' : Core}
    (h : runPrintVoid args c = .ok c') : FrameCD c c' := by
  unfold runPrintVoid at h
  split at h
  · injection h with h
    subst h
    exact ⟨⟨rfl, rfl⟩, rfl, rfl, rfl, rfl⟩
  · exact CRes.noConfusion h

/-- As `runAllocInt_frame`, for the scalar `run_store_T`. -/
theorem runStoreInt_frame {args : List Opnd} {c c' : Core}
    (h : runStoreInt args c = .ok c') : FrameCD c c' := by
  unfold runStoreInt at h
  split at h
  · obtain ⟨v, -, h⟩ := withOpt_ok h
    obtain ⟨c₂, hs, h⟩ := withOpt_ok h
    injection h with h
    subst h
    obtain ⟨m, rfl⟩ := storeValue_shape _ _ _ _ hs
    simp [FrameCD, PreservesCD, StacksEq]
  · exact CRes.noConfusion h

/-- As `runAllocInt_frame`, for `run_store_T_`. -/
theorem runStoreShaped_frame {mods : List (String × String)} {args : List Opnd} {c c' : Core}
    (h : runStoreShaped mods args c = .ok c') : FrameCD c c' := by
  unfold runStoreShaped at h
  split at h
  · dsimp only at h
    split at h
    · obtain ⟨c₂, hs, h⟩ := withOpt_ok h
      injection h with h
      subst h
      obtain ⟨m, n, rfl⟩ := storeMultipleValues_shape _ _ _ _ _ hs
      simp [FrameCD, PreservesCD, StacksEq]
    · split at h
      · obtain ⟨v, -, h⟩ := withOpt_ok h
        obtain ⟨c₂, hs, h⟩ := withOpt_ok h
        injection h with h
        subst h
        obtain ⟨m, rfl⟩ := storeDeref_shape _ _ _ _ hs
        simp [FrameCD, PreservesCD, StacksEq]
      · injection h with h
        subst h
        exact ⟨⟨rfl, rfl⟩, rfl, rfl, rfl, rfl⟩
  · exact CRes.noConfusion h

/-- As `runAllocInt_frame`, for the whole binary-operator family. -/
theorem runBinop_frame {f : Val → Val → Option Val} {args : List Opnd} {c c' : Core}
    (h : runBinop f args c = .ok c') : FrameCD c c' := by
  unfold runBinop at h
  split at h
  · obtain ⟨la, -, h⟩ := withOpt_ok h
    obtain ⟨lv, -, h⟩ := withOpt_ok h
    obtain ⟨ra, -, h⟩ := withOpt_ok h
    obtain ⟨rv, -, h⟩ := withOpt_ok h
    obtain ⟨v, -, h⟩ := withOpt_ok h
    obtain ⟨ta, -, h⟩ := withOpt_ok h
    obtain ⟨c₂, hm, h⟩ := withOpt_ok h
    injection h with h
    subst h
    obtain ⟨m, rfl⟩ := memWrite_shape hm
    simp [FrameCD, PreservesCD, StacksEq]
  · exact CRes.noConfusion h

/-- As `runAllocInt_frame`, for `run_not_bool`. -/
theorem runNotBool_frame {args : List Opnd} {c c' : Core}
    (h : runNotBool args c = .ok c') : FrameCD c c' := by
  unfold runNotBool at h
  split at h
  · obtain ⟨v, -, h⟩ := withOpt_ok h
    obtain ⟨a, -, h⟩ := withOpt_ok h
    obtain ⟨c₂, hm, h⟩ := withOpt_ok h
    injection h with h
    subst h
    obtain ⟨m, rfl⟩ := memWrite_shape hm
    simp [FrameCD, PreservesCD, StacksEq]
  · exact CRes.noConfusion h

/-- As `runAllocInt_frame`, for `run_sitofp`. -/
theorem runSitofp_frame {args : List Opnd} {c c' : Core}
    (h : runSitofp args c = .ok c') : FrameCD c c' := by
  unfold runSitofp at h
  split at h
  · obtain ⟨v, -, h⟩ := withOpt_ok h
    obtain ⟨fv, -, h⟩ := withOpt_ok h
    obtain ⟨a, -, h⟩ := withOpt_ok h
    obtain ⟨c₂, hm, h⟩ := withOpt_ok h
    injection h with h
    subst h
    obtain ⟨m, rfl⟩ := memWrite_shape hm
    simp [FrameCD, PreservesCD, StacksEq]
  · exact CRes.noConfusion h

/-- As `runAllocInt_frame`, for `run_fptosi`. -/
theorem runFptosi_frame {args : List Opnd} {c c' : Core}
    (h : runFptosi args c = .ok c') : FrameCD c c' := by
  unfold runFptosi at h
  split at h
  · obtain ⟨v, -, h⟩ := withOpt_ok h
    obtain ⟨iv, -, h⟩ := withOpt_ok h
    obtain ⟨a, -, h⟩ := withOpt_ok h
    obtain ⟨c₂, hm, h⟩ := withOpt_ok h
    injection h with h
    subst h
    obtain ⟨m, rfl⟩ := memWrite_shape hm
    simp [FrameCD, PreservesCD, StacksEq]
  · exact CRes.noConfusion h

/-- `run_call` in full: it allocates the target register, pushes the target
name onto the register stack and the (already advanced) pc onto the return
stack, and jumps to the callee's entry pc. -/
theorem runCall_char {src tgt : String} {c c' : Core}
    (h : runCall [Opnd.s src, Opnd.s tgt] c = .ok c') :
    ∃ p : Int, c' = { allocReg tgt c with registers := tgt :: c.registers, returns := c.pc :: c.returns, pc := p } := by
  unfold runCall at h
  dsimp only at h
  obtain ⟨a, -, h⟩ := withOpt_ok h
  obtain ⟨v, -, h⟩ := withOpt_ok h
  split at h
  · rename_i p
    injection h with h
    subst h
    refine ⟨p, ?_⟩
    unfold allocReg
    split <;> rfl
  · exact CRes.noConfusion h

/-- `run_call` keeps the program and debug flag. -/
theorem runCall_cd {args : List Opnd} {c c' : Core}
    (h : runCall args c = .ok c') : PreservesCD c c' := by
  unfold runCall at h
  split at h
  · obtain ⟨a, -, h⟩ := withOpt_ok h
    obtain ⟨v, -, h⟩ := withOpt_ok h
    split at h
    · injection h with h
      subst h
      exact ⟨by simp, by simp⟩
    · exact CRes.noConfusion h
  · exact CRes.noConfusion h

/-- `run_define_T` keeps the program and debug flag. -/
theorem runDefineTyped_cd {args : List Opnd} {c c' : Core}
    (h : runDefineTyped args c = .ok c') : PreservesCD c c' := by
  unfold runDefineTyped at h
  split at h
  · split at h
    · injection h with h
      subst h
      exact ⟨by simp, by simp⟩
    · obtain ⟨c₂, hp, h⟩ := withOpt_ok h
      injection h with h
      subst h
      obtain ⟨d, o, m, rfl⟩ := pushFrame_shape _ _ _ _ hp
      exact ⟨rfl, rfl⟩
  · exact CRes.noConfusion h

/-- `run_define_void` keeps the program and debug flag. -/
theorem runDefineVoid_cd {args : List Opnd} {c c' : Core}
    (h : runDefineVoid args c = .ok c') : PreservesCD c c' := by
  unfold runDefineVoid at h
  split at h
  · split at h
    · injection h with h
      subst h
      exact ⟨by simp, by simp⟩
    · obtain ⟨c₂, hp, h⟩ := withOpt_ok h
      injection h with h
      subst h
      obtain ⟨d, o, m, rfl⟩ := pushFrame_shape _ _ _ _ hp
      exact ⟨rfl, rfl⟩
  · exact CRes.noConfusion h

/-- `_pop` in full, on the continuing (nonempty return stack) path: the new
state restores the saved locals table, pops all four stacks, jumps to the
saved return pc, restores the saved offset, and its memory is the old
memory after the single write of the returned value into the cell that the
RESTORED locals table assigns to the popped target register. -/
theorem popFrame_char {t : Val} {c c' : Core} (h : popFrame t c = CRes.ok c') :
    ∃ (value : Val) (vars' : Dict) (stack' : List Dict) (r : String) (regs' : List String) (ra o p : Int) (sp' rts' : List Int) (m : List Val),
      c.stack = vars' :: stack' ∧ c.registers = r :: regs' ∧ c.sp = o :: sp' ∧ c.returns = p :: rts' ∧ dlookup vars' r = some ra ∧ memWrite ra value c = some { c with mem := m } ∧ c' = { c with mem := m, vars := vars', stack := stack', registers := regs', sp := sp', offset := o, returns := rts', pc := p } := by
  unfold popFrame at h
  split at h
  · split at h
    · exact CRes.noConfusion h
    · obtain ⟨i, -, h⟩ := withOpt_ok h
      obtain ⟨v, -, h⟩ := withOpt_ok h
      exact CRes.noConfusion h
  · obtain ⟨value, -, h⟩ := withOpt_ok h
    split at h
    · exact CRes.noConfusion h
    · rename_i vars' stack' hstack
      split at h
      · exact CRes.noConfusion h
      · rename_i r regs' hregs
        obtain ⟨ra, hra, h⟩ := withOpt_ok h
        obtain ⟨c₂, hw, h⟩ := withOpt_ok h
        obtain ⟨m, rfl⟩ := memWrite_shape hw
        dsimp only at h
        split at h
        · exact CRes.noConfusion h
        · rename_i o sp' hsp
          split at h
          · exact CRes.noConfusion h
          · rename_i p rts' hrts
            injection h with h
            subst h
            exact ⟨value, vars', stack', r, regs', ra, o, p, sp', rts', m,
                   hstack, hregs, hsp, hrts, hra, hw, rfl⟩

/-- `_pop` keeps the program and debug flag. -/
theorem popFrame_cd {t : Val} {c c' : Core} (h : popFrame t c = CRes.ok c') :
    PreservesCD c c' := by
  obtain ⟨value, vars', stack', r, regs', ra, o, p, sp', rts', m,
          -, -, -, -, -, -, rfl⟩ := popFrame_char h
  exact ⟨rfl, rfl⟩

/-- `run_return_T` keeps the program and debug flag. -/
theorem runReturnInt_cd {args : List Opnd} {c c' : Core}
    (h : runReturnInt args c = .ok c') : PreservesCD c c' := by
  unfold runReturnInt at h
  split at h
  · obtain ⟨a, -, h⟩ := withOpt_ok h
    exact popFrame_cd h
  · exact CRes.noConfusion h

/-- `run_return_void` keeps the program and debug flag. -/
theorem runReturnVoid_cd {args : List Opnd} {c c' : Core}
    (h : runReturnVoid args c = .ok c') : PreservesCD c c' := by
  unfold runReturnVoid at h
  split at h
  · obtain ⟨a, -, h⟩ := withOpt_ok h
    obtain ⟨v, -, h⟩ := withOpt_ok h
    exact popFrame_cd h
  · exact CRes.noConfusion h

/-- A successful `_read_int` changes only the output (refill diagnostics)
and the input state. -/
theorem readIntHelper_ok {fuel : Nat} {st : St} {v : Val} {st' : St}
    (h : readIntHelper fuel st = .ok v st') :
    ∃ o i, st' = ⟨{ st.c with out := o }, i⟩ := by
  unfold readIntHelper at h
  rcases hgi : getInputGo fuel st.inp with ⟨r, msgs⟩
  rw [hgi] at h
  dsimp only at h
  split at h
  · exact ReadRes.noConfusion h
  · split at h
    · exact ReadRes.noConfusion h
    · injection h with h1 h2
      subst h2
      exact ⟨_, _, rfl⟩

/-- A successful `_read_float` changes only the output and the input
state. -/
theorem readFloatHelper_ok {fuel : Nat} {st : St} {v : Val} {st' : St}
    (h : readFloatHelper fuel st = .ok v st') :
    ∃ o i, st' = ⟨{ st.c with out := o }, i⟩ := by
  unfold readFloatHelper at h
  rcases hgi : getInputGo fuel st.inp with ⟨r, msgs⟩
  rw [hgi] at h
  dsimp only at h
  split at h
  · exact ReadRes.noConfusion h
  · split at h
    · exact ReadRes.noConfusion h
    · injection h with h1 h2
      subst h2
      exact ⟨_, _, rfl⟩

/-- The store step of the scalar/shaped `read` handlers leaves the frame
stacks and program configuration alone. -/
theorem readStore_frame {store : String → Val → Core → Option Core} {source : String} {r : ReadRes} {st st' : St}
    (hstore : ∀ t v c c', store t v c = some c' → ∃ m, c' = { c with mem := m })
    (hr : ∀ v s, r = .ok v s → ∃ o i, s = ⟨{ st.c with out := o }, i⟩)
    (h : readStore store source r = .ok st') : FrameCD st.c st'.c := by
  unfold readStore at h
  split at h
  · exact ERes.noConfusion h
  · exact ERes.noConfusion h
  · rename_i v s
    split at h
    · rename_i c₂ hc₂
      injection h with h
      subst h
      obtain ⟨o, i, rfl⟩ := hr v s rfl
      obtain ⟨m, rfl⟩ := hstore _ _ _ _ hc₂
      simp [FrameCD, PreservesCD, StacksEq]
    · exact ERes.noConfusion h

/-- `run_read_int` leaves the frame stacks and program configuration
alone. -/
theorem runReadInt_frame {fuel : Nat} {args : List Opnd} {st st' : St}
    (h : runReadInt fuel args st = .ok st') : FrameCD st.c st'.c := by
  unfold runReadInt at h
  split at h
  · exact readStore_frame storeValue_shape (fun v s hs => readIntHelper_ok hs) h
  · exact ERes.noConfusion h

/-- `run_read_int_` leaves the frame stacks and program configuration
alone. -/
theorem runReadIntShaped_frame {fuel : Nat} {args : List Opnd} {st st' : St}
    (h : runReadIntShaped fuel args st = .ok st') : FrameCD st.c st'.c := by
  unfold runReadIntShaped at h
  split at h
  · exact readStore_frame storeDeref_shape (fun v s hs => readIntHelper_ok hs) h
  · exact ERes.noConfusion h

/-- `run_read_float` leaves the frame stacks and program configuration
alone. -/
theorem runReadFloat_frame {fuel : Nat} {args : List Opnd} {st st' : St}
    (h : runReadFloat fuel args st = .ok st') : FrameCD st.c st'.c := by
  unfold runReadFloat at h
  split at h
  · exact readStore_frame storeValue_shape (fun v s hs => readFloatHelper_ok hs) h
  · exact ERes.noConfusion h

/-- `run_read_float_` leaves the frame stacks and program configuration
alone. -/
theorem runReadFloatShaped_frame {fuel : Nat} {args : List Opnd} {st st' : St}
    (h : runReadFloatShaped fuel args st = .ok st') : FrameCD st.c st'.c := by
  unfold runReadFloatShaped at h
  split at h
  · exact readStore_frame storeDeref_shape (fun v s hs => readFloatHelper_ok hs) h
  · exact ERes.noConfusion h

/-- `run_read_char` leaves the frame stacks and program configuration
alone. -/
theorem runReadChar_frame {fuel : Nat} {args : List Opnd} {st st' : St}
    (h : runReadChar fuel args st = .ok st') : FrameCD st.c st'.c := by
  unfold runReadChar at h
  split at h
  · rcases hgi : getInputGo fuel st.inp with ⟨r, msgs⟩
    rw [hgi] at h
    dsimp only at h
    split at h
    · exact ERes.noConfusion h
    · split at h
      · exact ERes.noConfusion h
      · split at h
        · rename_i c₂ hc₂
          injection h with h
          subst h
          obtain ⟨m, rfl⟩ := storeValue_shape _ _ _ _ hc₂
          simp [FrameCD, PreservesCD, StacksEq]
        · exact ERes.noConfusion h
  · exact ERes.noConfusion h

/-- `run_read_char_` leaves the frame stacks and program configuration
alone. -/
theorem runReadCharShaped_frame {fuel : Nat} {args : List Opnd} {st st' : St}
    (h : runReadCharShaped fuel args st = .ok st') : FrameCD st.c st'.c := by
  unfold runReadCharShaped at h
  split at h
  · rcases hgi : getInputGo fuel st.inp with ⟨r, msgs⟩
    rw [hgi] at h
    dsimp only at h
    split at h
    · exact ERes.noConfusion h
    · split at h
      · exact ERes.noConfusion h
      · split at h
        · rename_i c₂ hc₂
          injection h with h
          subst h
          obtain ⟨m, rfl⟩ := storeDeref_shape _ _ _ _ hc₂
          simp [FrameCD, PreservesCD, StacksEq]
        · exact ERes.noConfusion h
  · exact ERes.noConfusion h

set_option maxHeartbeats 3200000 in
/-- Every registered scalar-core handler keeps the program and debug flag,
and every one of them except call/define/return also keeps the four frame
stacks. -/
theorem scalarCore_frame {canon : String} {hdl : CoreHandler}
    (hsc : scalarCore canon = some hdl) :
    ∀ {args : List Opnd} {c c' : Core}, hdl args c = CRes.ok c' →
      PreservesCD c c' ∧
      (canon ≠ "call" → pyStartsWith canon "define" = false →
        pyStartsWith canon "return" = false → StacksEq c c') := by
  unfold scalarCore at hsc
  split at hsc <;>
    first
      | exact Option.noConfusion hsc
      | (injection hsc with hsc; subst hsc; intro args c c' hok;
         first
           | exact ⟨(runAllocInt_frame hok).1, fun _ _ _ => (runAllocInt_frame hok).2⟩
           | exact ⟨(runCbranch_frame hok).1, fun _ _ _ => (runCbranch_frame hok).2⟩
           | exact ⟨(runElem_frame hok).1, fun _ _ _ => (runElem_frame hok).2⟩
           | exact ⟨(runGetInt_frame hok).1, fun _ _ _ => (runGetInt_frame hok).2⟩
           | exact ⟨(runJump_frame hok).1, fun _ _ _ => (runJump_frame hok).2⟩
           | exact ⟨(runLiteralInt_frame hok).1, fun _ _ _ => (runLiteralInt_frame hok).2⟩
           | exact ⟨(runLiteralChar_frame hok).1, fun _ _ _ => (runLiteralChar_frame hok).2⟩
           | exact ⟨(runLoadInt_frame hok).1, fun _ _ _ => (runLoadInt_frame hok).2⟩
           | exact ⟨(runParamInt_frame hok).1, fun _ _ _ => (runParamInt_frame hok).2⟩
           | exact ⟨(runPrintString_frame hok).1, fun _ _ _ => (runPrintString_frame hok).2⟩
           | exact ⟨(runPrintInt_frame hok).1, fun _ _ _ => (runPrintInt_frame hok).2⟩
           | exact ⟨(runPrintVoid_frame hok).1, fun _ _ _ => (runPrintVoid_frame hok).2⟩
           | exact ⟨(runStoreInt_frame hok).1, fun _ _ _ => (runStoreInt_frame hok).2⟩
           | exact ⟨(runBinop_frame hok).1, fun _ _ _ => (runBinop_frame hok).2⟩
           | exact ⟨(runNotBool_frame hok).1, fun _ _ _ => (runNotBool_frame hok).2⟩
           | exact ⟨(runSitofp_frame hok).1, fun _ _ _ => (runSitofp_frame hok).2⟩
           | exact ⟨(runFptosi_frame hok).1, fun _ _ _ => (runFptosi_frame hok).2⟩
           | exact ⟨runCall_cd hok, fun hne _ _ => absurd rfl hne⟩
           | exact ⟨runDefineTyped_cd hok, fun _ hne _ => absurd hne (by decide)⟩
           | exact ⟨runDefineVoid_cd hok, fun _ hne _ => absurd hne (by decide)⟩
           | exact ⟨runReturnInt_cd hok, fun _ _ hne => absurd hne (by decide)⟩
           | exact ⟨runReturnVoid_cd hok, fun _ _ hne => absurd hne (by decide)⟩)

/-- Every registered shaped-core handler keeps the frame stacks and the
program and debug flag. -/
theorem shapedCore_frame {canon : String} {hf : List (String × String) → CoreHandler}
    (hsc : shapedCore canon = some hf) :
    ∀ {mods : List (String × String)} {args : List Opnd} {c c' : Core},
      hf mods args c = CRes.ok c' → FrameCD c c' := by
  unfold shapedCore at hsc
  split at hsc <;>
    first
      | exact Option.noConfusion hsc
      | (injection hsc with hsc; subst hsc; intro mods args c c' hok;
         first
           | exact runAllocShaped_frame hok
           | exact runGetShaped_frame hok
           | exact runLoadShaped_frame hok
           | exact runStoreShaped_frame hok)

/-- Every registered scalar read handler keeps the frame stacks and the
program and debug flag. -/
theorem scalarRead_frame {canon : String} {hdl : StHandler}
    (hsr : scalarRead canon = some hdl) :
    ∀ {fuel : Nat} {args : List Opnd} {st st' : St},
      hdl fuel args st = .ok st' → FrameCD st.c st'.c := by
  unfold scalarRead at hsr
  split at hsr <;>
    first
      | exact Option.noConfusion hsr
      | (injection hsr with hsr; subst hsr; intro fuel args st st' hok;
         first
           | exact runReadInt_frame hok
           | exact runReadFloat_frame hok
           | exact runReadChar_frame hok)

/-- Every registered shaped read handler keeps the frame stacks and the
program and debug flag. -/
theorem shapedRead_frame {canon : String} {hdl : StHandler}
    (hsr : shapedRead canon = some hdl) :
    ∀ {fuel : Nat} {args : List Opnd} {st st' : St},
      hdl fuel args st = .ok st' → FrameCD st.c st'.c := by
  unfold shapedRead at hsr
  split at hsr <;>
    first
      | exact Option.noConfusion hsr
      | (injection hsr with hsr; subst hsr; intro fuel args st st' hok;
         first
           | exact runReadIntShaped_frame hok
           | exact runReadFloatShaped_frame hok
           | exact runReadCharShaped_frame hok)

/-- The scalar read table is populated exactly at the three `read_T`
canonical names. -/
theorem scalarRead_isSome_names {canon : String} (h : (scalarRead canon).isSome) :
    canon = "read_int" ∨ canon = "read_float" ∨ canon = "read_char" := by
  unfold scalarRead at h
  split at h
  · exact Or.inl rfl
  · exact Or.inr (Or.inl rfl)
  · exact Or.inr (Or.inr rfl)
  · simp at h

/-- The shaped read table is populated exactly at the three `read_T`
canonical names. -/
theorem shapedRead_isSome_names {canon : String} (h : (shapedRead canon).isSome) :
    canon = "read_int" ∨ canon = "read_float" ∨ canon = "read_char" := by
  unfold shapedRead at h
  split at h
  · exact Or.inl rfl
  · exact Or.inr (Or.inl rfl)
  · exact Or.inr (Or.inr rfl)
  · simp at h

/-- The first piece produced by `split(sep)` is a prefix of the split
string. -/
theorem pySplitOn_head (sep : Char) (l : List Char) :
    ∃ (t : List Char) (ts : List (List Char)) (rest : List Char),
      pySplitOn sep l = t :: ts ∧ l = t ++ rest := by
  induction l with
  | nil => exact ⟨[], [], [], rfl, rfl⟩
  | cons c cs ih =>
    obtain ⟨t, ts, rest, hsplit, hdecomp⟩ := ih
    by_cases hc : c = sep
    · refine ⟨[], pySplitOn sep cs, c :: cs, ?_, rfl⟩
      simp only [pySplitOn, if_pos hc]
    · refine ⟨c :: t, ts, rest, ?_, by rw [hdecomp]; rfl⟩
      simp only [pySplitOn, if_neg hc, hsplit]

/-- A `_`-separated decomposition whose right-hand side starts `read_`
forces the four characters `read` to open the left piece. -/
theorem underscore_read (a b tail : List Char)
    (e : a ++ '_' :: b = 'r' :: 'e' :: 'a' :: 'd' :: '_' :: tail) :
    ['r', 'e', 'a', 'd'] <+: a := by
  rcases a with _ | ⟨x1, _ | ⟨x2, _ | ⟨x3, _ | ⟨x4, rest⟩⟩⟩⟩
  · simp only [List.nil_append, List.cons.injEq] at e
    exact absurd e.1 (by decide)
  · simp only [List.cons_append, List.nil_append, List.cons.injEq] at e
    exact absurd e.2.1 (by decide)
  · simp only [List.cons_append, List.nil_append, List.cons.injEq] at e
    exact absurd e.2.2.1 (by decide)
  · simp only [List.cons_append, List.nil_append, List.cons.injEq] at e
    exact absurd e.2.2.2.1 (by decide)
  · simp only [List.cons_append, List.cons.injEq] at e
    obtain ⟨h1, h2, h3, h4, -⟩ := e
    subst h1
    subst h2
    subst h3
    subst h4
    exact ⟨rest, rfl⟩

/-- If the decoder produces one of the three `read_T` canonical operations,
the raw opcode begins with `read`. -/
theorem readCanon_opcode_read {s canon : String} {mods : List (String × String)}
    (hx : extractOperation s = some (canon, mods))
    (hn : canon = "read_int" ∨ canon = "read_float" ∨ canon = "read_char") :
    pyStartsWith s "read" = true := by
  obtain ⟨t, ts, rest, hsplit, hdecomp⟩ := pySplitOn_head '_' s.data
  unfold extractOperation at hx
  rw [hsplit] at hx
  simp only [List.map_cons] at hx
  split at hx
  · rename_i hspec
    simp only [Option.some.injEq, Prod.mk.injEq] at hx
    obtain ⟨h1, -⟩ := hx
    rw [h1] at hspec
    rcases hn with h | h | h <;> rw [h] at hspec <;> exact absurd hspec (by decide)
  · cases ts with
    | nil => exact Option.noConfusion hx
    | cons t₂ ts₂ =>
      simp only [List.map_cons] at hx
      simp only [Option.some.injEq, Prod.mk.injEq] at hx
      obtain ⟨h1, -⟩ := hx
      have hpre : ['r', 'e', 'a', 'd'] <+: t := by
        rcases hn with h | h | h <;>
          (rw [h] at h1;
           exact underscore_read t t₂ _ ((List.append_assoc t ['_'] t₂).symm.trans (congrArg String.data h1)))
      unfold pyStartsWith
      rw [List.isPrefixOf_iff_prefix]
      rw [hdecomp]
      exact List.IsPrefix.trans hpre (List.prefix_append t rest)

/-- An opcode that does not begin with `read` decodes to a canonical
operation outside both `read` handler tables. -/
theorem readTables_none {s canon : String} {mods : List (String × String)}
    (hx : extractOperation s = some (canon, mods))
    (hs : pyStartsWith s "read" = false) :
    scalarRead canon = Option.none ∧ shapedRead canon = Option.none := by
  constructor
  · cases hr : scalarRead canon with
    | none => rfl
    | some h =>
      have hn := scalarRead_isSome_names (by rw [hr]; rfl)
      rw [readCanon_opcode_read hx hn] at hs
      exact Bool.noConfusion hs
  · cases hr : shapedRead canon with
    | none => rfl
    | some h =>
      have hn := shapedRead_isSome_names (by rw [hr]; rfl)
      rw [readCanon_opcode_read hx hn] at hs
      exact Bool.noConfusion hs

/-- A dispatched instruction whose opcode does not begin with `read` acts
on the interpreter object only: its outcome is one fixed core result,
whatever the input state; and if it continues, the program and debug flag
are unchanged. -/
theorem execInstr_pure (f : Nat) (op : Instr) (c : Core)
    (hop : pyStartsWith op.op "read" = false) :
    ∃ r : CRes, (∀ i : Inp, execInstr f op ⟨c, i⟩ = r.lift i) ∧
      (∀ c', r = CRes.ok c' → PreservesCD c c') := by
  by_cases hg : (op.args.length > 0 || op.op = "return_void" || op.op = "print_void") = true
  case neg =>
    refine ⟨CRes.ok c, fun i => ?_, fun c' hr => ?_⟩
    · unfold execInstr
      rw [if_neg hg]
      rfl
    · injection hr with hr
      subst hr
      exact ⟨rfl, rfl⟩
  case pos =>
    cases hx : extractOperation op.op with
    | none =>
      refine ⟨CRes.crash c, fun i => ?_, fun c' hr => CRes.noConfusion hr⟩
      unfold execInstr
      rw [if_pos hg, hx]
      rfl
    | some pr =>
      obtain ⟨canon, mods⟩ := pr
      obtain ⟨hsr, hshr⟩ := readTables_none hx hop
      by_cases hh : hasHandler canon = true
      case neg =>
        refine ⟨CRes.ok { c with out := c.out ++ [pyPrintLine ("Warning: No run_" ++ canon ++ "() method")] }, fun i => ?_, fun c' hr => ?_⟩
        · unfold execInstr
          rw [if_pos hg, hx]
          dsimp only
          unfold execDecoded
          rw [if_neg hh]
          rfl
        · injection hr with hr
          subst hr
          exact ⟨rfl, rfl⟩
      case pos =>
        by_cases hm : mods.isEmpty = true
        · cases hscr : scalarCore canon with
          | none =>
            refine ⟨CRes.crash c, fun i => ?_, fun c' hr => CRes.noConfusion hr⟩
            unfold execInstr
            rw [if_pos hg, hx]
            dsimp only
            unfold execDecoded
            rw [if_pos hh, if_pos hm, hsr, hscr]
            rfl
          | some hdl =>
            refine ⟨hdl op.args c, fun i => ?_, fun c' hr => (scalarCore_frame hscr hr).1⟩
            unfold execInstr
            rw [if_pos hg, hx]
            dsimp only
            unfold execDecoded
            rw [if_pos hh, if_pos hm, hsr, hscr]
        · cases hscr : shapedCore canon with
          | none =>
            refine ⟨CRes.crash c, fun i => ?_, fun c' hr => CRes.noConfusion hr⟩
            unfold execInstr
            rw [if_pos hg, hx]
            dsimp only
            unfold execDecoded
            rw [if_pos hh, if_neg hm, hshr, hscr]
            rfl
          | some hf =>
            refine ⟨hf mods op.args c, fun i => ?_, fun c' hr => (shapedCore_frame hscr hr).1⟩
            unfold execInstr
            rw [if_pos hg, hx]
            dsimp only
            unfold execDecoded
            rw [if_pos hh, if_neg hm, hshr, hscr]

/-- A continuing dispatched instruction whose canonical operation is not
call, define or return leaves the four frame stacks untouched. -/
theorem execInstr_frame_stacks (f : Nat) (op : Instr) (s s' : St)
    (canon : String) (mods : List (String × String))
    (hx : extractOperation op.op = some (canon, mods))
    (hok : execInstr f op s = ERes.ok s')
    (h1 : canon ≠ "call") (h2 : pyStartsWith canon "define" = false)
    (h3 : pyStartsWith canon "return" = false) : StacksEq s.c s'.c := by
  unfold execInstr at hok
  split at hok
  · rw [hx] at hok
    dsimp only at hok
    unfold execDecoded at hok
    split at hok
    · split at hok
      · cases hsr : scalarRead canon with
        | some hdl =>
          rw [hsr] at hok
          dsimp only at hok
          exact (scalarRead_frame hsr hok).2
        | none =>
          rw [hsr] at hok
          dsimp only at hok
          cases hscr : scalarCore canon with
          | none =>
            rw [hscr] at hok
            exact ERes.noConfusion hok
          | some hdl =>
            rw [hscr] at hok
            dsimp only at hok
            cases hr : hdl op.args s.c with
            | ok c₂ =>
              rw [hr] at hok
              injection hok with hok
              subst hok
              exact (scalarCore_frame hscr hr).2 h1 h2 h3
            | exit v c₂ =>
              rw [hr] at hok
              exact ERes.noConfusion hok
            | crash c₂ =>
              rw [hr] at hok
              exact ERes.noConfusion hok
      · cases hsr : shapedRead canon with
        | some hdl =>
          rw [hsr] at hok
          dsimp only at hok
          exact (shapedRead_frame hsr hok).2
        | none =>
          rw [hsr] at hok
          dsimp only at hok
          cases hscr : shapedCore canon with
          | none =>
            rw [hscr] at hok
            exact ERes.noConfusion hok
          | some hf =>
            rw [hscr] at hok
            dsimp only at hok
            cases hr : hf mods op.args s.c with
            | ok c₂ =>
              rw [hr] at hok
              injection hok with hok
              subst hok
              exact (shapedCore_frame hscr hr).2
            | exit v c₂ =>
              rw [hr] at hok
              exact ERes.noConfusion hok
            | crash c₂ =>
              rw [hr] at hok
              exact ERes.noConfusion hok
    · injection hok with hok
      subst hok
      exact ⟨rfl, rfl, rfl, rfl⟩
  · injection hok with hok
    subst hok
    exact ⟨rfl, rfl, rfl, rfl⟩

/-- One non-debug iteration that dispatches to an exiting handler. -/
theorem runLoop_step_exit (f : Nat) (s s' : St) (v : Val) (op : Instr)
    (hdebug : s.c.debug = false)
    (hfetch : pyGet s.c.code s.c.pc = some op)
    (hexec : execInstr f op { s with c := { s.c with pc := s.c.pc + 1 } } = .exit v s') :
    runLoop (f + 1) Option.none s = .exited v s' := by
  have hd : dbgHook f Option.none s = .inr (Option.none, s) := by
    simp [dbgHook, hdebug]
  rw [runLoop, hd]
  dsimp only
  rw [hfetch]
  dsimp only
  rw [hexec]

/-- One non-debug iteration that dispatches to a crashing handler. -/
theorem runLoop_step_crash (f : Nat) (s s' : St) (op : Instr)
    (hdebug : s.c.debug = false)
    (hfetch : pyGet s.c.code s.c.pc = some op)
    (hexec : execInstr f op { s with c := { s.c with pc := s.c.pc + 1 } } = .crash s') :
    runLoop (f + 1) Option.none s = .crashed s' := by
  have hd : dbgHook f Option.none s = .inr (Option.none, s) := by
    simp [dbgHook, hdebug]
  rw [runLoop, hd]
  dsimp only
  rw [hfetch]
  dsimp only
  rw [hexec]

/-- One non-debug iteration whose fetch falls off the program. -/
theorem runLoop_step_fell (f : Nat) (s : St)
    (hdebug : s.c.debug = false)
    (hfetch : pyGet s.c.code s.c.pc = Option.none) :
    runLoop (f + 1) Option.none s = .fell s := by
  have hd : dbgHook f Option.none s = .inr (Option.none, s) := by
    simp [dbgHook, hdebug]
  rw [runLoop, hd]
  dsimp only
  rw [hfetch]

/-- `_copy_data` changes only the memory (and its cached length). -/
theorem copyData_shape {a : Int} {n : Nat} {v : Opnd} {c c' : Core}
    (h : copyData a n v c = some c') : ∃ m k, c' = { c with mem := m, memLen := k } := by
  unfold copyData at h
  split at h
  · injection h with h
    exact ⟨_, _, h.symm⟩
  · split at h
    · rw [Option.map_eq_some'] at h
      obtain ⟨vs, -, h⟩ := h
      exact ⟨_, _, h.symm⟩
    · injection h with h
      exact ⟨_, _, h.symm⟩
  · exact Option.noConfusion h

/-- The loading pass never changes the instruction list or the debug
flag. -/
theorem loadGo_cd : ∀ (ops : List Instr) (pc : Int) (c c' : Core),
    loadGo ops pc c = some c' → c'.code = c.code ∧ c'.debug = c.debug := by
  intro ops
  induction ops with
  | nil =>
    intro pc c c' h
    injection h with h
    subst h
    exact ⟨rfl, rfl⟩
  | cons op rest ih =>
    intro pc c c' h
    unfold loadGo at h
    split at h
    · split at h
      · exact Option.noConfusion h
      · split at h
        · split at h
          · split at h
            · split at h
              · obtain ⟨c₂, hw, h⟩ := bind_some_elim h
                obtain ⟨m, rfl⟩ := memWrite_shape hw
                simpa using ih _ _ _ h
              · simpa using ih _ _ _ h
            · split at h
              · obtain ⟨c₂, hw, h⟩ := bind_some_elim h
                obtain ⟨m, k, rfl⟩ := copyData_shape hw
                simpa using ih _ _ _ h
              · simpa using ih _ _ _ h
          · exact Option.noConfusion h
        · split at h
          · split at h
            · obtain ⟨c₂, hw, h⟩ := bind_some_elim h
              obtain ⟨m, rfl⟩ := memWrite_shape hw
              split at h <;> simpa using ih _ _ _ h
            · exact Option.noConfusion h
          · exact ih _ _ _ h
    · exact ih _ _ _ h

/-- The main loop of a read-free program is oblivious to the input state:
two runs from the same core agree on how they end, the exit value and the
whole final core (output included). -/
theorem runLoop_pure_agree : ∀ (f : Nat) (c : Core) (i1 i2 : Inp),
    c.debug = false → (∀ op ∈ c.code, pyStartsWith op.op "read" = false) →
    ResAgree (runLoop f Option.none ⟨c, i1⟩) (runLoop f Option.none ⟨c, i2⟩) := by
  intro f
  induction f with
  | zero => intro c i1 i2 _ _; exact ⟨rfl, rfl, rfl⟩
  | succ f ih =>
    intro c i1 i2 hd hr
    cases hfetch : pyGet c.code c.pc with
    | none =>
      rw [runLoop_step_fell f ⟨c, i1⟩ hd hfetch, runLoop_step_fell f ⟨c, i2⟩ hd hfetch]
      exact ⟨rfl, rfl, rfl⟩
    | some op =>
      have hop : pyStartsWith op.op "read" = false := hr op (pyGet_mem _ _ _ hfetch)
      obtain ⟨r, hlift, hcd⟩ := execInstr_pure f op { c with pc := c.pc + 1 } hop
      cases r with
      | ok c₂ =>
        rw [runLoop_step f ⟨c, i1⟩ ⟨c₂, i1⟩ op hd hfetch (hlift i1),
            runLoop_step f ⟨c, i2⟩ ⟨c₂, i2⟩ op hd hfetch (hlift i2)]
        have hpc := hcd c₂ rfl
        exact ih c₂ i1 i2 (hpc.2.trans hd) (by rw [hpc.1]; exact hr)
      | exit v c₂ =>
        rw [runLoop_step_exit f ⟨c, i1⟩ ⟨c₂, i1⟩ v op hd hfetch (hlift i1),
            runLoop_step_exit f ⟨c, i2⟩ ⟨c₂, i2⟩ v op hd hfetch (hlift i2)]
        exact ⟨rfl, rfl, rfl⟩
      | crash c₂ =>
        rw [runLoop_step_crash f ⟨c, i1⟩ ⟨c₂, i1⟩ op hd hfetch (hlift i1),
            runLoop_step_crash f ⟨c, i2⟩ ⟨c₂, i2⟩ op hd hfetch (hlift i2)]
        exact ⟨rfl, rfl, rfl⟩

/-- C8: for every uCIR program none of whose opcodes begins with `read`
(so no read_T instruction can ever be dispatched), two plain (non-debug)
runs of the engine with different standard inputs end the same way and
produce the same process exit code and the same output byte sequence --
whatever fuel bound is imposed on both. -/
theorem claim_C8_pure_deterministic (code : List Instr) (fuel : Nat) (in1 in2 : List String)
    (hpure : ∀ op ∈ code, pyStartsWith op.op "read" = false) :
    (runProgram false code in1 fuel).tag = (runProgram false code in2 fuel).tag ∧
    (runProgram false code in1 fuel).exitCode = (runProgram false code in2 fuel).exitCode ∧
    (runProgram false code in1 fuel).output = (runProgram false code in2 fuel).output := by
  cases hload : loadGo code 0 (initCore false code) with
  | none =>
    simp only [runProgram, hload]
    exact ⟨rfl, rfl, rfl⟩
  | some c =>
    have hcd := loadGo_cd _ _ _ _ hload
    have hdf : c.debug = false := hcd.2
    have hco : c.code = code := hcd.1
    simp only [runProgram, hload]
    rw [show (if c.debug = true then { c with out := c.out ++ [pyPrintLine "Interpreter running in debug mode:", pyPrintLine helpMsg] } else c) = c from by rw [hdf]; rfl]
    have hagree := runLoop_pure_agree fuel { c with lastpc := c.pc - 1, pc := c.start }
      ⟨in1, []⟩ ⟨in2, []⟩ hdf (fun op hop => hpure op (hco ▸ hop))
    obtain ⟨ht, he, hst⟩ := hagree
    refine ⟨ht, ?_, ?_⟩
    · unfold RunRes.exitCode
      rw [he]
    · unfold RunRes.output
      rw [hst]

/-- C8 witness: the pure `demoPure` program (no `read` opcode) behaves
identically on two different stdin contents. -/
theorem claim_C8_pure_deterministic_witness :
    (∀ op ∈ demoPure, pyStartsWith op.op "read" = false) ∧
    (runProgram false demoPure ["5\n"] 50).exitCode = (runProgram false demoPure [] 50).exitCode ∧
    (runProgram false demoPure ["5\n"] 50).output = (runProgram false demoPure [] 50).output := by
  refine ⟨by decide, ?_, ?_⟩
  · exact (claim_C8_pure_deterministic demoPure 50 ["5\n"] [] (by decide)).2.1
  · exact (claim_C8_pure_deterministic demoPure 50 ["5\n"] [] (by decide)).2.2

/-- A nonnegative-index memory write is `List.set` at that index. -/
theorem memWrite_set {i : Int} {v : Val} {c : Core} {m : List Val}
    (h : memWrite i v c = some { c with mem := m }) (hi : 0 ≤ i) :
    m = c.mem.set i.toNat v := by
  unfold memWrite at h
  rw [Option.map_eq_some'] at h
  obtain ⟨m₂, hset, heq⟩ := h
  have hm : m₂ = m := congrArg Core.mem heq
  subst hm
  unfold pySetL at hset
  by_cases hlt : 0 ≤ i ∧ i < (c.memLen : Int)
  · rw [if_pos hlt] at hset
    injection hset with hset
    exact hset.symm
  · rw [if_neg hlt] at hset
    by_cases hneg : -(c.memLen : Int) ≤ i ∧ i < 0
    · exact absurd hneg.2 (by omega)
    · rw [if_neg hneg] at hset
      exact Option.noConfusion hset

/-- C1 (counterexample): in `demoPtrWrite`, `@main` passes the address of
its local `%a` to `@f`, which writes 9 through the pointer.  At call time
(fuel-6 snapshot, pc back at `@main`'s `return_int`) the caller's locals
name cell 3 as `%a` and cell 5 as the call target `%t`, and cell 3 holds 0.
When the matching `return_int` has executed (fuel-11 snapshot) the locals
table IS restored, but the caller's locals-to-value mapping has changed at
`%a`'s cell (0 became 9) although `%a` is not the call's target register
`%t` — refuting the claim's "unchanged except for the single cell named by
the call's target register".  The whole program observably exits 9, not 0. -/
theorem claim_C1_counterexample :
    (demoPtrState 6).c.vars = [("%0", 2), ("%a", 3), ("%p", 4), ("%t", 5)] ∧
    (demoPtrState 6).c.registers = ["%t"] ∧
    (demoPtrState 6).c.returns = [6] ∧
    memRead (demoPtrState 6).c 3 = some (Val.int 0) ∧
    (demoPtrState 11).c.vars = (demoPtrState 6).c.vars ∧
    (demoPtrState 11).c.pc = 6 ∧
    memRead (demoPtrState 11).c 3 = some (Val.int 9) ∧
    memRead (demoPtrState 11).c 5 = some (Val.int 7) ∧
    dlookup (demoPtrState 6).c.vars "%a" = some 3 ∧
    dlookup (demoPtrState 6).c.vars "%t" = some 5 ∧
    ("%a" : String) ≠ "%t" ∧
    (runProgram false demoPtrWrite [] 50).exitCode = some 9 := by
  refine ⟨rfl, rfl, rfl, rfl, rfl, rfl, rfl, rfl, rfl, rfl, by decide, rfl⟩

/-- C1 (amended): the per-step frame discipline that actually holds.
(1) `run_call` pushes the target register name and the return pc and jumps,
leaving the memory and the frame/locals save stacks alone;
(2) function entry (`_push`) saves the caller's exact locals table and
offset on the two stacks;
(3) a continuing `_pop` restores the saved locals table, offset and return
pc, pops all four stacks, and changes the memory in exactly one cell: the
one the restored table assigns to the popped target register, which now
holds the returned value — relative to the memory AT RETURN TIME (the
callee may have changed the caller's other cells through pointers, cf. the
counterexample, so they are not in general their pre-call values);
(4) every continuing instruction other than call/define_T/return_T leaves
the four frame stacks untouched. -/
theorem claim_C1_call_return_frames :
    (∀ (src tgt : String) (c c' : Core), runCall [Opnd.s src, Opnd.s tgt] c = CRes.ok c' →
       c'.registers = tgt :: c.registers ∧ c'.returns = c.pc :: c.returns ∧
       c'.stack = c.stack ∧ c'.sp = c.sp ∧ c'.mem = c.mem ∧
       c'.vars = (allocReg tgt c).vars ∧ c'.offset = (allocReg tgt c).offset) ∧
    (∀ (locs : List String) (nr : Bool) (c c' : Core), pushFrame locs nr c = some c' →
       c'.stack = c.vars :: c.stack ∧ c'.sp = c.offset :: c.sp ∧
       c'.registers = c.registers ∧ c'.returns = c.returns ∧ c'.pc = c.pc) ∧
    (∀ (t : Val) (c c' : Core), popFrame t c = CRes.ok c' →
       ∃ (vars' : Dict) (r : String) (ra : Int) (value : Val),
         c.stack.head? = some vars' ∧ c.registers.head? = some r ∧
         c'.vars = vars' ∧ c'.stack = c.stack.tail ∧ c'.registers = c.registers.tail ∧
         c.sp.head? = some c'.offset ∧ c'.sp = c.sp.tail ∧
         c.returns.head? = some c'.pc ∧ c'.returns = c.returns.tail ∧
         dlookup vars' r = some ra ∧
         (0 ≤ ra → c'.mem = c.mem.set ra.toNat value ∧
            ∀ j : Nat, j ≠ ra.toNat → c'.mem[j]? = c.mem[j]?)) ∧
    (∀ (f : Nat) (op : Instr) (s s' : St) (canon : String) (mods : List (String × String)),
       extractOperation op.op = some (canon, mods) →
       execInstr f op s = ERes.ok s' →
       canon ≠ "call" → pyStartsWith canon "define" = false →
       pyStartsWith canon "return" = false → StacksEq s.c s'.c) := by
  refine ⟨?_, ?_, ?_, ?_⟩
  · intro src tgt c c' h
    obtain ⟨p, rfl⟩ := runCall_char h
    refine ⟨by simp, by simp, by simp, by simp, by simp, rfl, rfl⟩
  · intro locs nr c c' h
    obtain ⟨d, o, m, rfl⟩ := pushFrame_shape _ _ _ _ h
    exact ⟨rfl, rfl, rfl, rfl, rfl⟩
  · intro t c c' h
    obtain ⟨value, vars', stack', r, regs', ra, o, p, sp', rts', m,
            hstack, hregs, hsp, hrts, hra, hw, rfl⟩ := popFrame_char h
    refine ⟨vars', r, ra, value, by rw [hstack]; rfl, by rw [hregs]; rfl, rfl,
            by rw [hstack]; rfl, by rw [hregs]; rfl, by rw [hsp]; rfl, by rw [hsp]; rfl,
            by rw [hrts]; rfl, by rw [hrts]; rfl, hra, ?_⟩
    intro hra0
    have hm := memWrite_set hw hra0
    refine ⟨hm, fun j hj => ?_⟩
    show m[j]? = c.mem[j]?
    rw [hm]
    exact List.getElem?_set_ne (Ne.symm hj)
  · intro f op s s' canon mods hx hok h1 h2 h3
    exact execInstr_frame_stacks f op s s' canon mods hx hok h1 h2 h3

/-- C1 witness: the amended frame discipline instantiated on concrete
states — a `run_call` on `demoCore`, a `_push`/`_pop` pair, and a `jump`
step. -/
theorem claim_C1_call_return_frames_witness :
    (demoCallRes.registers = "%t" :: demoCore.registers ∧
     demoCallRes.returns = demoCore.pc :: demoCore.returns ∧
     demoCallRes.mem = demoCore.mem) ∧
    (demoPushRes.stack = demoCore.vars :: demoCore.stack ∧
     demoPushRes.sp = demoCore.offset :: demoCore.sp) ∧
    (demoPopRes.vars = [("%s", 0)] ∧ demoPopRes.pc = 3 ∧ demoPopRes.offset = 7 ∧
     demoPopRes.mem[1]? = demoPopCore.mem[1]?) ∧
    StacksEq demoCore demoJumpSt.c := by
  have h1 := claim_C1_call_return_frames.1 "%r" "%t" demoCore demoCallRes rfl
  have h2 := claim_C1_call_return_frames.2.1 [] false demoCore demoPushRes rfl
  obtain ⟨vars', r, ra, value, hhead, hrhead, hvars, -, -, hoff, -, hpc, -, hra, hmem⟩ :=
    claim_C1_call_return_frames.2.2.1 Val.none demoPopCore demoPopRes rfl
  have h4 := claim_C1_call_return_frames.2.2.2 0 ⟨"jump", [Opnd.s "%r"]⟩
    ⟨demoCore, ⟨[], []⟩⟩ demoJumpSt "jump" [] rfl rfl
    (by decide) (by decide) (by decide)
  have hv' : vars' = [("%s", 0)] := by
    have : some ([("%s", 0)] : Dict) = some vars' := hhead
    injection this with this
    exact this.symm
  subst hv'
  have hr' : r = "%s" := by
    have : some ("%s" : String) = some r := hrhead
    injection this with this
    exact this.symm
  subst hr'
  have hra' : ra = 0 := by
    have : some (0 : Int) = some ra := hra
    injection this with this
    exact this.symm
  subst hra'
  have hpc' : demoPopRes.pc = 3 := by
    have : some (3 : Int) = some demoPopRes.pc := hpc
    injection this
  have hoff' : demoPopRes.offset = 7 := by
    have : some (7 : Int) = some demoPopRes.offset := hoff
    injection this
  refine ⟨⟨h1.1, h1.2.1, h1.2.2.2.2.1⟩, ⟨h2.1, h2.2.1⟩,
          ⟨hvars, hpc', hoff', ?_⟩, h4⟩
  exact (hmem (by decide)).2 1 (by decide)
